import Mathlib

/-!
Verification of the HWTPYVEC polygon-offset / containment-classifier core.

The Python sources `vec/offset.py`, `vec/art2polyarea.py` and `vec/model.py`
are embedded shallowly: 2d coordinates become pairs of real numbers, Python
lists become Lean lists, and fallible control flow (a `TypeError` raised at
run time) becomes `Except`.  Helper functions imported from `vec/triquad.py`
and `vec/geom.py` (which are not part of the sources available here) are
modelled from the specification and are marked as such in their doc comments.
-/

namespace HWT

/-- Modelled from the spec: the single global numeric tolerance
(`triquad.TOL`, not in src).  The spec calls it "a single globally-consistent
numeric tolerance"; the concrete value used here is 1e-7. -/
noncomputable def TOL : ℝ := 1 / 10000000

lemma TOL_pos : 0 < TOL := by norm_num [TOL]

lemma TOL_lt_one : TOL < 1 := by norm_num [TOL]

/-- A 2d point or vector: pair of reals. -/
abbrev Pt := ℝ × ℝ

/-- Modelled from the spec: `triquad.Sub2` (not in src), componentwise
difference of 2d points. -/
noncomputable def Sub2 (a b : Pt) : Pt := (a.1 - b.1, a.2 - b.2)

/-- Modelled from the spec: `triquad.Add2` (not in src), componentwise sum. -/
noncomputable def Add2 (a b : Pt) : Pt := (a.1 + b.1, a.2 + b.2)

/-- Modelled from the spec: `triquad.Perp2` (not in src), the 2d cross
product (perp dot product) of two vectors. -/
noncomputable def Perp2 (u v : Pt) : ℝ := u.1 * v.2 - u.2 * v.1

/-- Modelled from the spec: `triquad.Length2` (not in src), Euclidean length. -/
noncomputable def Length2 (u : Pt) : ℝ := Real.sqrt (u.1 ^ 2 + u.2 ^ 2)

/-- Modelled from the spec: `triquad.Normalized2` (not in src), the vector
scaled to unit length (the zero vector maps to the zero vector). -/
noncomputable def Normalized2 (u : Pt) : Pt := (u.1 / Length2 u, u.2 / Length2 u)

/-- Modelled from the spec: `triquad.LinInterp2` (not in src), the point
`t` of the way from `a` to `b`. -/
noncomputable def LinInterp2 (a b : Pt) (t : ℝ) : Pt :=
  (a.1 + t * (b.1 - a.1), a.2 + t * (b.2 - a.2))

lemma Length2_nonneg (u : Pt) : 0 ≤ Length2 u := Real.sqrt_nonneg _

/-- Modelled from the spec: `triquad.Ccw` (not in src).  Whether the three
points make a strict counter-clockwise turn, judged with the global
tolerance. -/
noncomputable def Ccw (a b c : ℕ) (vmap : List Pt) : Bool :=
  let pa := vmap.getD a (0, 0)
  let pb := vmap.getD b (0, 0)
  let pc := vmap.getD c (0, 0)
  decide (TOL < Perp2 (Sub2 pb pa) (Sub2 pc pb))

/-- Modelled from the spec: `triquad.Angle` (not in src).  The interior
angle at `b` formed by `(a, b, c)`, in degrees; the spec states the result
lies in `[0, 180)` and that it is computed from the three points.  Degenerate
(zero-length) sides give angle 0.  `Real.arccos` clamps its argument to
`[-1, 1]`, matching the clamping a float implementation must do. -/
noncomputable def Angle (a b c : ℕ) (vmap : List Pt) : ℝ :=
  let pa := vmap.getD a (0, 0)
  let pb := vmap.getD b (0, 0)
  let pc := vmap.getD c (0, 0)
  let u := Sub2 pa pb
  let v := Sub2 pc pb
  if Length2 u = 0 ∨ Length2 v = 0 then 0
  else (180 / Real.pi) * Real.arccos ((u.1 * v.1 + u.2 * v.2) / (Length2 u * Length2 v))

/-- `Spoke` from `offset.py`: a ray growing from a boundary vertex. -/
structure Spoke where
  origin : ℕ
  is_reflex : Bool
  dir : Pt
  speed : ℝ
  face : ℕ
  index : ℕ

instance : Inhabited Spoke := ⟨⟨0, false, (0, 0), 0, 0, 0⟩⟩

noncomputable instance : DecidableEq Spoke := Classical.decEq _

/-- `Spoke.__init__` (offset.py lines 27-60): direction is the 90°-CCW
rotation of the normalized average of the incoming and outgoing unit edge
vectors; reflex flag is `Ccw(next, v, prev)`; speed is `1/sin(a/2)` for the
interior angle `a` in degrees, clamped to the sentinel `1e7` when
`|sin(a/2)| < TOL`. -/
noncomputable def spokeInit (v prev next face index : ℕ) (vmap : List Pt) : Spoke :=
  let vp := vmap.getD v (0, 0)
  let prevp := vmap.getD prev (0, 0)
  let nextp := vmap.getD next (0, 0)
  let uin := Normalized2 (Sub2 vp prevp)
  let uout := Normalized2 (Sub2 nextp vp)
  let uavg := Normalized2 (0.5 * (uin.1 + uout.1), 0.5 * (uin.2 + uout.2))
  let ang := Angle prev v next vmap
  let sin_half_ang := Real.sin (Real.pi * ang / 360)
  { origin := v
    is_reflex := Ccw next v prev vmap
    dir := (-uavg.2, uavg.1)
    speed := if |sin_half_ang| < TOL then 1e7 else 1 / sin_half_ang
    face := face
    index := index }

/-- `Spoke.EndPoint` (offset.py lines 69-82). -/
noncomputable def Spoke.EndPoint (s : Spoke) (t : ℝ) (vmap : List Pt) : Pt :=
  let p := vmap.getD s.origin (0, 0)
  (p.1 + s.speed * t * s.dir.1, p.2 + s.speed * t * s.dir.2)

/-- `OffsetEvent` from `offset.py`: a predicted vertex or edge collision. -/
structure OffsetEvent where
  is_vertex_event : Bool
  time : ℝ
  event_vertex : Pt
  spoke : Spoke
  other : Spoke

noncomputable instance : DecidableEq OffsetEvent := Classical.decEq _

/-- `Spoke.VertexEvent` (offset.py lines 84-121): intersect the two spoke
rays; no event when the lines are parallel/collinear within tolerance or
when either forward ray parameter is negative; otherwise the event time is
the larger of the two spokes' arrival times at the intersection point. -/
noncomputable def Spoke.VertexEvent (s other : Spoke) (vmap : List Pt) :
    Option OffsetEvent :=
  let a := vmap.getD s.origin (0, 0)
  let b := Add2 a s.dir
  let c := vmap.getD other.origin (0, 0)
  let d := Add2 c other.dir
  let u := Sub2 b a
  let v := Sub2 d c
  let w := Sub2 a c
  let pp := Perp2 u v
  if TOL < |pp| then
    let si := Perp2 v w / pp
    let ti := Perp2 u w / pp
    if 0 ≤ si ∧ 0 ≤ ti then
      let p := LinInterp2 a b si
      let dist_ab := si * Length2 u
      let dist_cd := ti * Length2 v
      let time_ab := dist_ab / s.speed
      let time_cd := dist_cd / other.speed
      some ⟨true, max time_ab time_cd, p, s, other⟩
    else none
  else none

end HWT

namespace HWT

/-- C3: for every pair of spokes, `VertexEvent` returns no event exactly when
the rays are parallel or collinear (the cross product `pp` of the directions
is within `TOL` of zero) or one of the forward ray parameters `si`, `ti` is
negative; and when an event is returned its time is the maximum of the two
spokes' arrival times at the intersection point (distance along each ray
divided by that spoke's speed), not the raw line-intersection parameter. -/
theorem vertexEvent_none_iff_and_time (s other : Spoke) (vmap : List Pt)
    (a c u v w : Pt) (pp si ti : ℝ)
    (hs : s.origin < vmap.length) (ho : other.origin < vmap.length)
    (ha : a = vmap.getD s.origin (0, 0))
    (hc : c = vmap.getD other.origin (0, 0))
    (hu : u = Sub2 (Add2 a s.dir) a)
    (hv : v = Sub2 (Add2 c other.dir) c)
    (hw : w = Sub2 a c)
    (hpp : pp = Perp2 u v)
    (hsi : si = Perp2 v w / pp)
    (hti : ti = Perp2 u w / pp) :
    (Spoke.VertexEvent s other vmap = none ↔
      |pp| ≤ TOL ∨ (TOL < |pp| ∧ (si < 0 ∨ ti < 0))) ∧
    (∀ ev, Spoke.VertexEvent s other vmap = some ev →
      ev.time = max (si * Length2 u / s.speed) (ti * Length2 v / other.speed)) := by
  simp only [Spoke.VertexEvent]
  rw [← ha, ← hc, ← hu, ← hv, ← hw, ← hpp, ← hsi, ← hti]
  split_ifs with h1 h2
  · refine ⟨⟨fun h => absurd h (by simp), ?_⟩, ?_⟩
    · rintro (hA | ⟨_, hC⟩)
      · exact absurd h1 (not_lt.mpr hA)
      · rcases hC with hC | hC
        · exact absurd h2.1 (not_le.mpr hC)
        · exact absurd h2.2 (not_le.mpr hC)
    · intro ev hev
      cases hev
      rfl
  · refine ⟨⟨fun _ => ?_, fun _ => rfl⟩, ?_⟩
    · push_neg at h2
      refine Or.inr ⟨h1, ?_⟩
      rcases lt_or_le si 0 with h | h
      · exact Or.inl h
      · exact Or.inr (h2 h)
    · intro ev hev
      cases hev
  · refine ⟨⟨fun _ => Or.inl (not_lt.mp h1), fun _ => rfl⟩, ?_⟩
    · intro ev hev
      cases hev

/-- A concrete spoke at the origin growing along the positive x axis. -/
noncomputable def veWitS : Spoke := ⟨0, false, (1, 0), 1, 0, 0⟩

/-- A concrete spoke at `(4,0)` growing along the positive y axis. -/
noncomputable def veWitO : Spoke := ⟨1, false, (0, 1), 1, 0, 1⟩

/-- Coordinate table for the two concrete witness spokes. -/
noncomputable def veWitVmap : List Pt := [(0, 0), (4, 0)]

/-- Witness for C3: the characterization applied to two concrete
perpendicular spokes (intersection parameters 4 and 0, cross product 1). -/
theorem vertexEvent_none_iff_and_time_witness :
    veWitS.origin < veWitVmap.length ∧ veWitO.origin < veWitVmap.length ∧
    ((Spoke.VertexEvent veWitS veWitO veWitVmap = none ↔
      |(1 : ℝ)| ≤ TOL ∨ (TOL < |(1 : ℝ)| ∧ ((4 : ℝ) < 0 ∨ (0 : ℝ) < 0))) ∧
    (∀ ev, Spoke.VertexEvent veWitS veWitO veWitVmap = some ev →
      ev.time = max ((4 : ℝ) * Length2 ((1 : ℝ), (0 : ℝ)) / veWitS.speed)
        ((0 : ℝ) * Length2 ((0 : ℝ), (1 : ℝ)) / veWitO.speed))) :=
  ⟨by simp [veWitS, veWitVmap], by simp [veWitO, veWitVmap],
    vertexEvent_none_iff_and_time veWitS veWitO veWitVmap
      (0, 0) (4, 0) (1, 0) (0, 1) (-4, 0) 1 4 0
      (by simp [veWitS, veWitVmap]) (by simp [veWitO, veWitVmap])
      (by norm_num [veWitS, veWitVmap])
      (by norm_num [veWitO, veWitVmap])
      (by norm_num [veWitS, veWitVmap, Sub2, Add2, Prod.ext_iff])
      (by norm_num [veWitO, veWitVmap, Sub2, Add2, Prod.ext_iff])
      (by norm_num [veWitS, veWitO, veWitVmap, Sub2, Prod.ext_iff])
      (by norm_num [Perp2])
      (by norm_num [Perp2])
      (by norm_num [Perp2])⟩

lemma sqrt_of_sq (r x : ℝ) (hr : 0 ≤ r) (hx : r ^ 2 = x) : Real.sqrt x = r := by
  subst hx
  exact Real.sqrt_sq hr

/-- `Offset` from `offset.py`: one offset generation.  The `next` field links
to the generation that takes over after this one, so the type is recursive. -/
inductive Offset where
  | mk (vmap : List Pt) (faces : List (List Spoke)) (lines : List (ℕ × ℕ))
      (points : List ℕ) (endtime : ℝ) (next : Option Offset)

/-- Coordinate table of an offset generation. -/
def Offset.vmap : Offset → List Pt
  | .mk v _ _ _ _ _ => v

/-- Faces (cyclic spoke lists) of an offset generation. -/
def Offset.faces : Offset → List (List Spoke)
  | .mk _ f _ _ _ _ => f

/-- Degenerate two-vertex residues of an offset generation. -/
def Offset.lines : Offset → List (ℕ × ℕ)
  | .mk _ _ l _ _ _ => l

/-- Degenerate single-point residues of an offset generation. -/
def Offset.points : Offset → List ℕ
  | .mk _ _ _ p _ _ => p

/-- Time of this generation's first event (relative to its start). -/
def Offset.endtime : Offset → ℝ
  | .mk _ _ _ _ e _ => e

/-- The next generation in the chain, if any. -/
def Offset.next : Offset → Option Offset
  | .mk _ _ _ _ _ n => n

/-- The tail of `Spoke.EdgeEvent` (offset.py lines 192-215) after the linear
system has produced the ray parameter `t` and first-end edge position `w`:
reject `t < 0` and `w < 0`, then recompute the edge position `ww` from the
other end of the advancing edge and reject `ww < 0`; otherwise return the
edge event at time `t` at the spoke's position at that time. -/
noncomputable def Spoke.edgeEventTail (s other othernext : Spoke) (o oonext p : Pt)
    (t w : ℝ) : Option OffsetEvent :=
  if t < 0 then none
  else if w < 0 then none
  else
    let aa := o.1 - oonext.1
    let dd := o.2 - oonext.2
    let bb := othernext.dir.1 * othernext.speed - s.dir.1 * s.speed
    let ee := othernext.dir.2 * othernext.speed - s.dir.2 * s.speed
    let cc := -p.1
    let ff := -p.2
    if TOL < |cc| then
      if (aa - bb * t) / cc < 0 then none
      else some ⟨false, t, (o.1 + s.dir.1 * s.speed * t, o.2 + s.dir.2 * s.speed * t), s, other⟩
    else if TOL < |ff| then
      if (dd - ee * t) / ff < 0 then none
      else some ⟨false, t, (o.1 + s.dir.1 * s.speed * t, o.2 + s.dir.2 * s.speed * t), s, other⟩
    else none

/-- `Spoke.EdgeEvent` (offset.py lines 123-215): intersect this spoke's ray
with the advancing edge owned by `other` (the edge from `other` to the next
spoke of `other`'s face), by solving the two-unknown linear system for the
ray parameter `t` and edge position `w`; singular systems (within tolerance)
produce no event. -/
noncomputable def Spoke.EdgeEvent (s other : Spoke) (off : Offset) : Option OffsetEvent :=
  let vmap := off.vmap
  let o := vmap.getD s.origin (0, 0)
  let oo := vmap.getD other.origin (0, 0)
  let otherface := off.faces.getD other.face []
  let othernext := otherface.getD ((other.index + 1) % otherface.length) default
  let oonext := vmap.getD othernext.origin (0, 0)
  let p := Normalized2 (Sub2 oonext oo)
  let a := o.1 - oo.1
  let d := o.2 - oo.2
  let b := other.dir.1 * other.speed - s.dir.1 * s.speed
  let e := other.dir.2 * other.speed - s.dir.2 * s.speed
  let c := p.1
  let f := p.2
  if TOL < |c| then
    let dem := e - f * b / c
    if TOL < |dem| then
      let t := (d - f * a / c) / dem
      Spoke.edgeEventTail s other othernext o oonext p t ((a - b * t) / c)
    else none
  else if TOL < |f| then
    let dem := b - c * e / f
    if TOL < |dem| then
      let t := (a - c * d / f) / dem
      Spoke.edgeEventTail s other othernext o oonext p t ((d - e * t) / f)
    else none
  else none

set_option maxHeartbeats 1600000 in
/-- C4: `EdgeEvent` returns no event (and never an error) exactly when the
linear system for the ray parameter and edge position is singular within
tolerance (denominator of the chosen elimination within `TOL` of zero, or
both components of the normalized edge direction within `TOL` of zero), or
the ray parameter is negative, or the intersection's position along the
advancing edge is on the outside of either end of the edge (the signed
position `w` computed from the first end, or `ww` recomputed independently
from the second end, is negative — i.e. the fractional position falls
outside `[0,1]`); otherwise it returns an edge event at time `t` whose event
vertex is the spoke's position at time `t`. -/
theorem edgeEvent_none_iff (s other : Spoke) (off : Offset)
    (othernext : Spoke) (o oo oonext p : Pt)
    (a d b e aa dd bb ee dem1 t1 w1 dem2 t2 w2 : ℝ)
    (hs : s.origin < off.vmap.length) (ho : other.origin < off.vmap.length)
    (hof : other.face < off.faces.length)
    (hnext : othernext = (off.faces.getD other.face []).getD
      ((other.index + 1) % (off.faces.getD other.face []).length) default)
    (hoeq : o = off.vmap.getD s.origin (0, 0))
    (hooeq : oo = off.vmap.getD other.origin (0, 0))
    (hoonext : oonext = off.vmap.getD othernext.origin (0, 0))
    (hp : p = Normalized2 (Sub2 oonext oo))
    (ha : a = o.1 - oo.1) (hd : d = o.2 - oo.2)
    (hb : b = other.dir.1 * other.speed - s.dir.1 * s.speed)
    (he : e = other.dir.2 * other.speed - s.dir.2 * s.speed)
    (haa : aa = o.1 - oonext.1) (hdd : dd = o.2 - oonext.2)
    (hbb : bb = othernext.dir.1 * othernext.speed - s.dir.1 * s.speed)
    (hee : ee = othernext.dir.2 * othernext.speed - s.dir.2 * s.speed)
    (hdem1 : dem1 = e - p.2 * b / p.1) (ht1 : t1 = (d - p.2 * a / p.1) / dem1)
    (hw1 : w1 = (a - b * t1) / p.1)
    (hdem2 : dem2 = b - p.1 * e / p.2) (ht2 : t2 = (a - p.1 * d / p.2) / dem2)
    (hw2 : w2 = (d - e * t2) / p.2) :
    (Spoke.EdgeEvent s other off = none ↔
      (TOL < |p.1| ∧ (|dem1| ≤ TOL ∨ t1 < 0 ∨ w1 < 0 ∨ (aa - bb * t1) / (-p.1) < 0)) ∨
      (|p.1| ≤ TOL ∧ TOL < |p.2| ∧
        (|dem2| ≤ TOL ∨ t2 < 0 ∨ w2 < 0 ∨ (dd - ee * t2) / (-p.2) < 0)) ∨
      (|p.1| ≤ TOL ∧ |p.2| ≤ TOL)) ∧
    (∀ ev, Spoke.EdgeEvent s other off = some ev →
      ev.is_vertex_event = false ∧
      ev.time = (if TOL < |p.1| then t1 else t2) ∧
      ev.event_vertex = (o.1 + s.dir.1 * s.speed * ev.time,
        o.2 + s.dir.2 * s.speed * ev.time)) := by
  simp only [Spoke.EdgeEvent, Spoke.edgeEventTail]
  rw [← hnext, ← hoeq, ← hooeq, ← hoonext, ← hp, ← ha, ← hd, ← hb, ← he,
    ← hdem1, ← ht1, ← hw1, ← hdem2, ← ht2, ← hw2, ← haa, ← hdd, ← hbb, ← hee]
  simp only [abs_neg, ← not_lt]
  split_ifs with h1 h2 hA hB hC h3 h4 hD hE hF <;>
    refine ⟨by tauto, ?_⟩ <;>
    intro ev hev <;>
    first
      | exact hev.elim
      | (cases hev; exact ⟨rfl, by simp [h1], rfl⟩)

end HWT

namespace HWT

/-- A concrete reflex spoke at the origin growing along the positive x axis. -/
noncomputable def eeWitS : Spoke := ⟨0, true, (1, 0), 1, 0, 0⟩

/-- First spoke of a face whose top edge advances downward. -/
noncomputable def eeWitA0 : Spoke := ⟨1, false, (0, -1), 1, 1, 0⟩

/-- Second spoke of that face. -/
noncomputable def eeWitA1 : Spoke := ⟨2, false, (0, -1), 1, 1, 1⟩

/-- A concrete offset state: the query spoke's own face is empty and a second
face carries the advancing edge from `(1,2)` to `(4,2)` moving down. -/
noncomputable def eeWitOff : Offset :=
  .mk [(0, 0), (1, 2), (4, 2)] [[], [eeWitA0, eeWitA1]] [] [] 1e8 none

/-- Witness for C4: the characterization applied to a concrete reflex spoke
and a concrete advancing edge; the solved parameters are `t = 2`, `w = 1`
and the second-end position is `2`, so an event is returned. -/
theorem edgeEvent_none_iff_witness :
    eeWitS.origin < eeWitOff.vmap.length ∧ eeWitA0.origin < eeWitOff.vmap.length ∧
    eeWitA0.face < eeWitOff.faces.length ∧
    ((Spoke.EdgeEvent eeWitS eeWitA0 eeWitOff = none ↔
      (TOL < |(1 : ℝ)| ∧ (|(-1 : ℝ)| ≤ TOL ∨ (2 : ℝ) < 0 ∨ (1 : ℝ) < 0 ∨
        ((-4 : ℝ) - (-1) * 2) / (-(1 : ℝ)) < 0)) ∨
      (|(1 : ℝ)| ≤ TOL ∧ TOL < |(0 : ℝ)| ∧ (|(-1 : ℝ)| ≤ TOL ∨ (1 : ℝ) < 0 ∨ (0 : ℝ) < 0 ∨
        ((-2 : ℝ) - (-1) * 1) / (-(0 : ℝ)) < 0)) ∨
      (|(1 : ℝ)| ≤ TOL ∧ |(0 : ℝ)| ≤ TOL)) ∧
    (∀ ev, Spoke.EdgeEvent eeWitS eeWitA0 eeWitOff = some ev →
      ev.is_vertex_event = false ∧
      ev.time = (if TOL < |(1 : ℝ)| then (2 : ℝ) else (1 : ℝ)) ∧
      ev.event_vertex = ((0 : ℝ) + eeWitS.dir.1 * eeWitS.speed * ev.time,
        (0 : ℝ) + eeWitS.dir.2 * eeWitS.speed * ev.time))) := by
  have h9 : Real.sqrt 9 = 3 := sqrt_of_sq 3 9 (by norm_num) (by norm_num)
  refine ⟨by norm_num [eeWitS, eeWitOff, Offset.vmap],
    by norm_num [eeWitA0, eeWitOff, Offset.vmap],
    by norm_num [eeWitA0, eeWitOff, Offset.faces], ?_⟩
  exact edgeEvent_none_iff eeWitS eeWitA0 eeWitOff eeWitA1
    (0, 0) (1, 2) (4, 2) (1, 0)
    (-1) (-2) (-1) (-1) (-4) (-2) (-1) (-1) (-1) 2 1 (-1) 1 0
    (by norm_num [eeWitS, eeWitOff, Offset.vmap])
    (by norm_num [eeWitA0, eeWitOff, Offset.vmap])
    (by norm_num [eeWitA0, eeWitOff, Offset.faces])
    (by norm_num [eeWitA0, eeWitA1, eeWitOff, Offset.faces])
    (by norm_num [eeWitS, eeWitOff, Offset.vmap])
    (by norm_num [eeWitA0, eeWitOff, Offset.vmap])
    (by norm_num [eeWitA1, eeWitOff, Offset.vmap])
    (by norm_num [Normalized2, Sub2, Length2, Prod.ext_iff, h9])
    (by norm_num) (by norm_num)
    (by norm_num [eeWitS, eeWitA0]) (by norm_num [eeWitS, eeWitA0])
    (by norm_num) (by norm_num)
    (by norm_num [eeWitS, eeWitA1]) (by norm_num [eeWitS, eeWitA1])
    (by norm_num) (by norm_num) (by norm_num)
    (by norm_num) (by norm_num) (by norm_num)

lemma edgeEventTail_time_nonneg (s other othernext : Spoke) (o oonext p : Pt)
    (t w : ℝ) :
    ∀ ev, Spoke.edgeEventTail s other othernext o oonext p t w = some ev →
      0 ≤ ev.time := by
  intro ev hev
  simp only [Spoke.edgeEventTail] at hev
  split_ifs at hev with h1 h2 h3 h4 h5 h6
  all_goals first
    | (cases hev; exact not_lt.mp h1)
    | cases hev

lemma edgeEvent_some_time_nonneg (s other : Spoke) (off : Offset) :
    ∀ ev, Spoke.EdgeEvent s other off = some ev → 0 ≤ ev.time := by
  intro ev hev
  simp only [Spoke.EdgeEvent] at hev
  split_ifs at hev with h1 h2 h3 h4
  all_goals first
    | exact edgeEventTail_time_nonneg _ _ _ _ _ _ _ _ ev hev
    | cases hev

/-- C10: whenever `VertexEvent` or `EdgeEvent` returns an event rather than
`None`, the event's time is nonnegative: for a vertex event because both ray
parameters, both lengths and both speeds are nonnegative there, and for an
edge event because a negative ray parameter is rejected.  No predicted
collision lies in the past of its generation. -/
theorem event_time_nonneg (s o : Spoke) (vmap : List Pt) (off : Offset)
    (other : Spoke) (hs : 0 ≤ s.speed) (ho : 0 ≤ o.speed) :
    (∀ ev, Spoke.VertexEvent s o vmap = some ev → 0 ≤ ev.time) ∧
    (∀ ev, Spoke.EdgeEvent s other off = some ev → 0 ≤ ev.time) := by
  constructor
  · intro ev hev
    simp only [Spoke.VertexEvent] at hev
    split_ifs at hev with h1 h2
    · cases hev
      refine le_max_of_le_left ?_
      refine div_nonneg (mul_nonneg h2.1 (Length2_nonneg _)) hs
  · exact edgeEvent_some_time_nonneg s other off

/-- Witness for C10: the nonnegativity statement applied to the concrete
spokes used above, whose speeds are 1. -/
theorem event_time_nonneg_witness :
    (0 : ℝ) ≤ veWitS.speed ∧ (0 : ℝ) ≤ veWitO.speed ∧
    ((∀ ev, Spoke.VertexEvent veWitS veWitO veWitVmap = some ev → 0 ≤ ev.time) ∧
     (∀ ev, Spoke.EdgeEvent veWitS eeWitA0 eeWitOff = some ev → 0 ≤ ev.time)) :=
  ⟨by norm_num [veWitS], by norm_num [veWitO],
    event_time_nonneg veWitS veWitO veWitVmap eeWitOff eeWitA0
      (by norm_num [veWitS]) (by norm_num [veWitO])⟩

end HWT

namespace HWT

/-- The face containing a spoke, looked up in an offset. -/
noncomputable def nseFace (off : Offset) (spoke : Spoke) : List Spoke :=
  off.faces.getD spoke.face []

/-- The spoke after `spoke` in its face (cyclically). -/
noncomputable def nseNext (off : Offset) (spoke : Spoke) : Spoke :=
  (nseFace off spoke).getD ((spoke.index + 1) % (nseFace off spoke).length) default

/-- The spoke before `spoke` in its face (cyclically); Python's
`(i-1) % nf` on a possibly-zero `i` is the mathematical modulus, embedded as
`(i + (nf-1)) % nf`. -/
noncomputable def nsePrev (off : Offset) (spoke : Spoke) : Spoke :=
  (nseFace off spoke).getD
    ((spoke.index + ((nseFace off spoke).length - 1)) % (nseFace off spoke).length) default

/-- One iteration of the edge-event scan in `Offset.NextSpokeEvents`
(offset.py lines 343-362): skip the spoke itself and its preceding spoke
(their advancing edges are adjacent to `spoke`), otherwise test the edge
event; an event strictly below the current band resets the collected lists,
and an event within `TOL` of the band time is appended — but when the kept
list is nonempty only under Python's guard
`ev.spoke != pev.spoke or ev.other.index == (pev.other.index+1) % nf`,
where `nf` is the length of the face currently being scanned. -/
noncomputable def nseBand (nf : ℕ) (st : ℝ × List OffsetEvent × List OffsetEvent)
    (ev : OffsetEvent) : ℝ × List OffsetEvent × List OffsetEvent :=
  let st1 := if ev.time < st.1 - TOL then
      (ev.time, ([] : List OffsetEvent), ([] : List OffsetEvent))
    else st
  if |ev.time - st1.1| < TOL then
    match st1.2.2.getLast? with
    | none => (st1.1, st1.2.1, [ev])
    | some pev =>
      if ev.spoke ≠ pev.spoke ∨ ev.other.index = (pev.other.index + 1) % nf then
        (st1.1, st1.2.1, st1.2.2 ++ [ev])
      else st1
  else st1

noncomputable def nseStep (off : Offset) (spoke prev_spoke : Spoke) (nf : ℕ)
    (st : ℝ × List OffsetEvent × List OffsetEvent) (other : Spoke) :
    ℝ × List OffsetEvent × List OffsetEvent :=
  if other = spoke ∨ other = prev_spoke then st
  else
    match Spoke.EdgeEvent spoke other off with
    | none => st
    | some ev => nseBand nf st ev

/-- Seed state of the scan (offset.py lines 333-341): the vertex event
against the next spoke of the face, if any, with the sentinel 1e100
otherwise. -/
noncomputable def nseSt0 (off : Offset) (spoke : Spoke) :
    ℝ × List OffsetEvent × List OffsetEvent :=
  match Spoke.VertexEvent spoke (nseNext off spoke) off.vmap with
  | some ev => (ev.time, [ev], [])
  | none => (1e100, [], [])

/-- `Offset.NextSpokeEvents` (offset.py lines 314-363): the single vertex
event against the next spoke of the face seeds the state; then, only for a
reflex spoke, every other spoke's advancing edge in every face is scanned
with `nseStep`. -/
noncomputable def NextSpokeEvents (off : Offset) (spoke : Spoke) :
    ℝ × List OffsetEvent × List OffsetEvent :=
  if spoke.is_reflex then
    off.faces.foldl
      (fun st f => f.foldl (nseStep off spoke (nsePrev off spoke) f.length) st)
      (nseSt0 off spoke)
  else nseSt0 off spoke

end HWT

namespace HWT

lemma sqrt_nine : Real.sqrt 9 = 3 := sqrt_of_sq 3 9 (by norm_num) (by norm_num)

lemma sqrt_sixteen : Real.sqrt 16 = 4 := sqrt_of_sq 4 16 (by norm_num) (by norm_num)

lemma sqrt_twentyfive : Real.sqrt 25 = 5 := sqrt_of_sq 5 25 (by norm_num) (by norm_num)

lemma sqrt_thirtysix : Real.sqrt 36 = 6 := sqrt_of_sq 6 36 (by norm_num) (by norm_num)

/-- Reflex query spoke at the origin, growing along the positive x axis. -/
noncomputable def nseS : Spoke := ⟨0, true, (1, 0), 1, 0, 0⟩

/-- Next spoke in the query spoke's face; parallel direction, so no vertex
event. -/
noncomputable def nseS1 : Spoke := ⟨1, false, (-1, 0), 1, 0, 1⟩

/-- Previous spoke in the query spoke's face (skipped by the scan). -/
noncomputable def nseS2 : Spoke := ⟨2, false, (-1, 0), 1, 0, 2⟩

/-- Face-1 spoke owning the advancing edge from `(1,2)` to `(4,2)`, which
moves down and meets the query ray at time 2. -/
noncomputable def nseA0 : Spoke := ⟨3, false, (0, -1), 1, 1, 0⟩

/-- Face-1 spoke owning the edge from `(4,2)` to `(1,6)` (event at 22/7). -/
noncomputable def nseA1 : Spoke := ⟨4, false, (0, -1), 1, 1, 1⟩

/-- Face-1 spoke owning the edge from `(1,6)` to `(1,2)` (no event). -/
noncomputable def nseA2 : Spoke := ⟨5, false, (0, -1), 1, 1, 2⟩

/-- Face-2 spoke owning the advancing edge from `(4,-2)` to `(1,-2)`, which
moves up and also meets the query ray at time 2. -/
noncomputable def nseB0 : Spoke := ⟨6, false, (0, 1), 1, 2, 0⟩

/-- Face-2 spoke owning the edge from `(1,-2)` to `(4,-6)` (no event). -/
noncomputable def nseB1 : Spoke := ⟨7, false, (0, 1), 1, 2, 1⟩

/-- Face-2 spoke owning the edge from `(4,-6)` to `(4,-2)` (event at 4). -/
noncomputable def nseB2 : Spoke := ⟨8, false, (0, 1), 1, 2, 2⟩

/-- Offset state for the simultaneous-edge-event counterexample: the reflex
spoke's ray meets the descending top edge of face 1 and the ascending bottom
edge of face 2 at exactly the same time 2. -/
noncomputable def nseOff : Offset :=
  .mk [(0, 0), (-5, 3), (-5, -3), (1, 2), (4, 2), (1, 6), (4, -2), (1, -2), (4, -6)]
    [[nseS, nseS1, nseS2], [nseA0, nseA1, nseA2], [nseB0, nseB1, nseB2]] [] [] 1e8 none

lemma nse_ee_A0 : Spoke.EdgeEvent nseS nseA0 nseOff =
    some ⟨false, 2, (2, 0), nseS, nseA0⟩ := by
  simp only [Spoke.EdgeEvent, Spoke.edgeEventTail, nseOff, nseS, nseA0, nseA1, nseA2,
    Offset.vmap, Offset.faces]
  norm_num [Normalized2, Sub2, Length2, TOL, sqrt_nine]

end HWT

namespace HWT

lemma nse_ee_S1 : Spoke.EdgeEvent nseS nseS1 nseOff = none := by
  simp only [Spoke.EdgeEvent, Spoke.edgeEventTail, nseOff, nseS, nseS1, nseS2,
    Offset.vmap, Offset.faces]
  norm_num [Normalized2, Sub2, Length2, TOL, sqrt_thirtysix]

lemma nse_ee_A1 : Spoke.EdgeEvent nseS nseA1 nseOff =
    some ⟨false, 22 / 7, (22 / 7, 0), nseS, nseA1⟩ := by
  simp only [Spoke.EdgeEvent, Spoke.edgeEventTail, nseOff, nseS, nseA0, nseA1, nseA2,
    Offset.vmap, Offset.faces]
  norm_num [Normalized2, Sub2, Length2, TOL, sqrt_twentyfive, abs_of_pos, abs_of_neg]

lemma nse_ee_A2 : Spoke.EdgeEvent nseS nseA2 nseOff = none := by
  simp only [Spoke.EdgeEvent, Spoke.edgeEventTail, nseOff, nseS, nseA0, nseA1, nseA2,
    Offset.vmap, Offset.faces]
  norm_num [Normalized2, Sub2, Length2, TOL, sqrt_sixteen]

lemma nse_ee_B0 : Spoke.EdgeEvent nseS nseB0 nseOff =
    some ⟨false, 2, (2, 0), nseS, nseB0⟩ := by
  simp only [Spoke.EdgeEvent, Spoke.edgeEventTail, nseOff, nseS, nseB0, nseB1, nseB2,
    Offset.vmap, Offset.faces]
  norm_num [Normalized2, Sub2, Length2, TOL, sqrt_nine]

lemma nse_ee_B1 : Spoke.EdgeEvent nseS nseB1 nseOff = none := by
  simp only [Spoke.EdgeEvent, Spoke.edgeEventTail, nseOff, nseS, nseB0, nseB1, nseB2,
    Offset.vmap, Offset.faces]
  norm_num [Normalized2, Sub2, Length2, TOL, sqrt_twentyfive, abs_of_pos, abs_of_neg]

lemma nse_ee_B2 : Spoke.EdgeEvent nseS nseB2 nseOff =
    some ⟨false, 4, (4, 0), nseS, nseB2⟩ := by
  simp only [Spoke.EdgeEvent, Spoke.edgeEventTail, nseOff, nseS, nseB0, nseB1, nseB2,
    Offset.vmap, Offset.faces]
  norm_num [Normalized2, Sub2, Length2, TOL, sqrt_sixteen]

lemma nse_next_eq : nseNext nseOff nseS = nseS1 := by
  simp [nseNext, nseFace, nseOff, nseS, Offset.faces]

lemma nse_prev_eq : nsePrev nseOff nseS = nseS2 := by
  simp [nsePrev, nseFace, nseOff, nseS, Offset.faces]

lemma nse_ve_none : Spoke.VertexEvent nseS (nseNext nseOff nseS) nseOff.vmap = none := by
  rw [nse_next_eq]
  simp only [Spoke.VertexEvent, nseOff, nseS, nseS1, Offset.vmap]
  norm_num [Perp2, Sub2, Add2, TOL]

end HWT

namespace HWT

lemma nse_eval : NextSpokeEvents nseOff nseS =
    (2, [], [⟨false, 2, (2, 0), nseS, nseA0⟩]) := by
  have hfaces : nseOff.faces =
      [[nseS, nseS1, nseS2], [nseA0, nseA1, nseA2], [nseB0, nseB1, nseB2]] := rfl
  have hrefl : nseS.is_reflex = true := rfl
  have hskipS : (nseS = nseS ∨ nseS = nseS2) = True := by simp
  have hskipS2 : (nseS2 = nseS ∨ nseS2 = nseS2) = True := by simp
  have hS1 : ¬(nseS1 = nseS ∨ nseS1 = nseS2) := by
    simp [nseS, nseS1, nseS2, Spoke.mk.injEq]
  have hA0 : ¬(nseA0 = nseS ∨ nseA0 = nseS2) := by
    simp [nseS, nseA0, nseS2, Spoke.mk.injEq]
  have hA1 : ¬(nseA1 = nseS ∨ nseA1 = nseS2) := by
    simp [nseS, nseA1, nseS2, Spoke.mk.injEq]
  have hA2 : ¬(nseA2 = nseS ∨ nseA2 = nseS2) := by
    simp [nseS, nseA2, nseS2, Spoke.mk.injEq]
  have hB0 : ¬(nseB0 = nseS ∨ nseB0 = nseS2) := by
    simp [nseS, nseB0, nseS2, Spoke.mk.injEq]
  have hB1 : ¬(nseB1 = nseS ∨ nseB1 = nseS2) := by
    simp [nseS, nseB1, nseS2, Spoke.mk.injEq]
  have hB2 : ¬(nseB2 = nseS ∨ nseB2 = nseS2) := by
    simp [nseS, nseB2, nseS2, Spoke.mk.injEq]
  have hidxA0 : nseA0.index = 0 := rfl
  have hidxB0 : nseB0.index = 0 := rfl
  simp only [NextSpokeEvents, nseSt0, nse_ve_none, nse_prev_eq, hrefl, hfaces, if_true,
    List.foldl, nseStep, nseBand, hskipS, hskipS2, hS1, hA0, hA1, hA2, hB0, hB1, hB2,
    nse_ee_S1, nse_ee_A0, nse_ee_A1, nse_ee_A2, nse_ee_B0, nse_ee_B1, nse_ee_B2,
    hidxA0, hidxB0]
  norm_num [hidxA0, hidxB0, TOL, List.getLast?, abs_of_pos, abs_of_neg]

end HWT

namespace HWT

/-- C5 counterexample: in the concrete state `nseOff`, the scan for the
reflex spoke `nseS` finds the edge event against `nseB0`'s advancing edge
(a spoke of another face, neither the spoke itself nor its preceding
neighbor) at exactly the minimal event time 2, yet `NextSpokeEvents` returns
neither it in the vertex-event list nor in the edge-event list: Python's
consecutive-index guard (`ev.other.index == (pev.other.index+1) % nf`) drops
a simultaneous event, so not every found event within tolerance of the
minimum is returned. -/
theorem nextSpokeEvents_drops_simultaneous_event :
    nseS.is_reflex = true ∧
    Spoke.EdgeEvent nseS nseB0 nseOff = some ⟨false, 2, (2, 0), nseS, nseB0⟩ ∧
    [nseB0, nseB1, nseB2] ∈ nseOff.faces ∧ nseB0 ∈ [nseB0, nseB1, nseB2] ∧
    nseB0 ≠ nseS ∧ nseB0 ≠ nsePrev nseOff nseS ∧
    (NextSpokeEvents nseOff nseS).1 = 2 ∧
    |(⟨false, 2, (2, 0), nseS, nseB0⟩ : OffsetEvent).time -
      (NextSpokeEvents nseOff nseS).1| < TOL ∧
    (⟨false, 2, (2, 0), nseS, nseB0⟩ : OffsetEvent) ∉ (NextSpokeEvents nseOff nseS).2.1 ∧
    (⟨false, 2, (2, 0), nseS, nseB0⟩ : OffsetEvent) ∉ (NextSpokeEvents nseOff nseS).2.2 := by
  refine ⟨rfl, nse_ee_B0, ?_, ?_, ?_, ?_, ?_, ?_, ?_, ?_⟩
  · show [nseB0, nseB1, nseB2] ∈ nseOff.faces
    simp [nseOff, Offset.faces]
  · simp
  · simp [nseB0, nseS, Spoke.mk.injEq]
  · rw [nse_prev_eq]
    simp [nseB0, nseS2, Spoke.mk.injEq]
  · rw [nse_eval]
  · rw [nse_eval]
    norm_num [TOL]
  · rw [nse_eval]
    simp
  · rw [nse_eval]
    simp [OffsetEvent.mk.injEq, nseA0, nseB0, Spoke.mk.injEq]

end HWT

namespace HWT

lemma nseBand_fst (nf : ℕ) (st : ℝ × List OffsetEvent × List OffsetEvent)
    (ev : OffsetEvent) :
    (nseBand nf st ev).1 = if ev.time < st.1 - TOL then ev.time else st.1 := by
  unfold nseBand
  by_cases h1 : ev.time < st.1 - TOL
  · simp [if_pos h1, List.getLast?, sub_self, abs_zero, TOL_pos]
  · simp only [if_neg h1]
    split_ifs with h2
    · cases hL : st.2.2.getLast? with
      | none => simp [hL]
      | some pev =>
        simp only [hL]
        split_ifs <;> rfl
    · rfl

lemma nseBand_vs (nf : ℕ) (st : ℝ × List OffsetEvent × List OffsetEvent)
    (ev : OffsetEvent) :
    ((nseBand nf st ev).2.1 = [] ∧ (nseBand nf st ev).1 = ev.time) ∨
    ((nseBand nf st ev).2.1 = st.2.1 ∧ (nseBand nf st ev).1 = st.1) := by
  unfold nseBand
  by_cases h1 : ev.time < st.1 - TOL
  · left
    simp [if_pos h1, List.getLast?, sub_self, abs_zero, TOL_pos]
  · right
    simp only [if_neg h1]
    split_ifs with h2
    · cases hL : st.2.2.getLast? with
      | none => simp [hL]
      | some pev =>
        simp only [hL]
        split_ifs <;> exact ⟨rfl, rfl⟩
    · exact ⟨rfl, rfl⟩

lemma nseBand_mem_elim (nf : ℕ) (st : ℝ × List OffsetEvent × List OffsetEvent)
    (ev : OffsetEvent) :
    ∀ e ∈ (nseBand nf st ev).2.2,
      (e ∈ st.2.2 ∧ (nseBand nf st ev).1 = st.1) ∨
      (e = ev ∧ |ev.time - (nseBand nf st ev).1| < TOL) := by
  intro e he
  revert he
  unfold nseBand
  by_cases h1 : ev.time < st.1 - TOL
  · simp [if_pos h1, List.getLast?, sub_self, abs_zero, TOL_pos]
    intro he
    subst he
    simp [TOL_pos]
  · simp only [if_neg h1]
    split_ifs with h2
    · cases hL : st.2.2.getLast? with
      | none =>
        intro he
        simp only [List.mem_singleton] at he
        subst he
        right
        exact ⟨rfl, by simpa using h2⟩
      | some pev =>
        simp only [hL]
        split_ifs with h4
        · intro he
          simp only [List.mem_append, List.mem_singleton] at he
          rcases he with he | he
          · exact Or.inl ⟨he, rfl⟩
          · subst he
            exact Or.inr ⟨rfl, by simpa using h2⟩
        · intro he
          exact Or.inl ⟨he, rfl⟩
    · intro he
      exact Or.inl ⟨he, rfl⟩

end HWT

namespace HWT

lemma nseStep_fst_le (off : Offset) (spoke prev_spoke : Spoke) (nf : ℕ)
    (st : ℝ × List OffsetEvent × List OffsetEvent) (other : Spoke) :
    (nseStep off spoke prev_spoke nf st other).1 ≤ st.1 := by
  unfold nseStep
  split_ifs with h1
  · exact le_refl _
  cases hEE : Spoke.EdgeEvent spoke other off with
  | none => exact le_refl _
  | some ev =>
    simp only [nseBand_fst]
    split_ifs with hr
    · linarith [TOL_pos]
    · exact le_refl _

lemma nseStep_fst_le_event (off : Offset) (spoke prev_spoke : Spoke) (nf : ℕ)
    (st : ℝ × List OffsetEvent × List OffsetEvent) (other : Spoke) (ev : OffsetEvent)
    (hskip : ¬(other = spoke ∨ other = prev_spoke))
    (hEE : Spoke.EdgeEvent spoke other off = some ev) :
    (nseStep off spoke prev_spoke nf st other).1 ≤ ev.time + TOL := by
  unfold nseStep
  rw [if_neg hskip, hEE]
  simp only [nseBand_fst]
  split_ifs with hr
  · linarith [TOL_pos]
  · linarith [TOL_pos]

lemma foldl_nseStep_fst_le (off : Offset) (spoke prev_spoke : Spoke) (nf : ℕ)
    (l : List Spoke) (st : ℝ × List OffsetEvent × List OffsetEvent) :
    ((l.foldl (nseStep off spoke prev_spoke nf) st).1 ≤ st.1) := by
  induction l generalizing st with
  | nil => exact le_refl _
  | cons x xs ih =>
    exact le_trans (ih (nseStep off spoke prev_spoke nf st x))
      (nseStep_fst_le off spoke prev_spoke nf st x)

lemma foldl2_nseStep_fst_le (off : Offset) (spoke prev_spoke : Spoke)
    (fs : List (List Spoke)) (st : ℝ × List OffsetEvent × List OffsetEvent) :
    ((fs.foldl (fun st f => f.foldl (nseStep off spoke prev_spoke f.length) st) st).1
      ≤ st.1) := by
  induction fs generalizing st with
  | nil => exact le_refl _
  | cons f fs ih =>
    exact le_trans (ih (f.foldl (nseStep off spoke prev_spoke f.length) st))
      (foldl_nseStep_fst_le off spoke prev_spoke f.length f st)

lemma foldl_nseStep_fst_le_event (off : Offset) (spoke prev_spoke : Spoke) (nf : ℕ)
    (l : List Spoke) (st : ℝ × List OffsetEvent × List OffsetEvent)
    (other : Spoke) (ev : OffsetEvent)
    (hmem : other ∈ l) (hskip : ¬(other = spoke ∨ other = prev_spoke))
    (hEE : Spoke.EdgeEvent spoke other off = some ev) :
    ((l.foldl (nseStep off spoke prev_spoke nf) st).1 ≤ ev.time + TOL) := by
  induction l generalizing st with
  | nil => cases hmem
  | cons x xs ih =>
    rcases List.mem_cons.mp hmem with hx | hx
    · subst hx
      exact le_trans (foldl_nseStep_fst_le off spoke prev_spoke nf xs _)
        (nseStep_fst_le_event off spoke prev_spoke nf st other ev hskip hEE)
    · exact ih (nseStep off spoke prev_spoke nf st x) hx

lemma foldl2_nseStep_fst_le_event (off : Offset) (spoke prev_spoke : Spoke)
    (fs : List (List Spoke)) (st : ℝ × List OffsetEvent × List OffsetEvent)
    (f : List Spoke) (other : Spoke) (ev : OffsetEvent)
    (hf : f ∈ fs) (hmem : other ∈ f)
    (hskip : ¬(other = spoke ∨ other = prev_spoke))
    (hEE : Spoke.EdgeEvent spoke other off = some ev) :
    ((fs.foldl (fun st f => f.foldl (nseStep off spoke prev_spoke f.length) st) st).1
      ≤ ev.time + TOL) := by
  induction fs generalizing st with
  | nil => cases hf
  | cons g gs ih =>
    rcases List.mem_cons.mp hf with hg | hg
    · subst hg
      exact le_trans (foldl2_nseStep_fst_le off spoke prev_spoke gs _)
        (foldl_nseStep_fst_le_event off spoke prev_spoke f.length f st other ev
          hmem hskip hEE)
    · exact ih (g.foldl (nseStep off spoke prev_spoke g.length) st) hg

end HWT

namespace HWT

/-- Invariant of the edge-event scan: every collected edge event lies within
`TOL` of the current band time and was produced by `EdgeEvent` against some
non-skipped spoke of some face. -/
def nseEsInv (off : Offset) (spoke prev_spoke : Spoke)
    (st : ℝ × List OffsetEvent × List OffsetEvent) : Prop :=
  ∀ e ∈ st.2.2, |e.time - st.1| < TOL ∧
    ∃ o2, (∃ f ∈ off.faces, o2 ∈ f) ∧ ¬(o2 = spoke ∨ o2 = prev_spoke) ∧
      Spoke.EdgeEvent spoke o2 off = some e

/-- Invariant of the scan: any surviving vertex event is the one computed
against the next spoke in the face, and the band time equals its time. -/
def nseVsInv (off : Offset) (spoke : Spoke)
    (st : ℝ × List OffsetEvent × List OffsetEvent) : Prop :=
  ∀ e ∈ st.2.1,
    Spoke.VertexEvent spoke (nseNext off spoke) off.vmap = some e ∧ st.1 = e.time

lemma nseStep_preserves (off : Offset) (spoke prev_spoke : Spoke) (nf : ℕ)
    (st : ℝ × List OffsetEvent × List OffsetEvent) (other : Spoke)
    (hmem : ∃ f ∈ off.faces, other ∈ f)
    (hEs : nseEsInv off spoke prev_spoke st) (hVs : nseVsInv off spoke st) :
    nseEsInv off spoke prev_spoke (nseStep off spoke prev_spoke nf st other) ∧
    nseVsInv off spoke (nseStep off spoke prev_spoke nf st other) := by
  unfold nseStep
  split_ifs with h1
  · exact ⟨hEs, hVs⟩
  cases hEE : Spoke.EdgeEvent spoke other off with
  | none => exact ⟨hEs, hVs⟩
  | some ev =>
    simp only
    constructor
    · intro e he
      rcases nseBand_mem_elim nf st ev e he with ⟨hold, hfst⟩ | ⟨heq, hband⟩
      · rcases hEs e hold with ⟨hb, hsrc⟩
        exact ⟨by rw [hfst] ; exact hb, hsrc⟩
      · subst heq
        exact ⟨hband, other, hmem, h1, hEE⟩
    · intro e he
      rcases nseBand_vs nf st ev with ⟨hnil, _⟩ | ⟨hkeep, hfst⟩
      · rw [hnil] at he
        cases he
      · rw [hkeep] at he
        rcases hVs e he with ⟨hv, ht⟩
        exact ⟨hv, by rw [hfst] ; exact ht⟩

lemma foldl_nseStep_preserves (off : Offset) (spoke prev_spoke : Spoke) (nf : ℕ)
    (l : List Spoke) (st : ℝ × List OffsetEvent × List OffsetEvent)
    (hsub : ∀ x ∈ l, ∃ f ∈ off.faces, x ∈ f)
    (hEs : nseEsInv off spoke prev_spoke st) (hVs : nseVsInv off spoke st) :
    nseEsInv off spoke prev_spoke (l.foldl (nseStep off spoke prev_spoke nf) st) ∧
    nseVsInv off spoke (l.foldl (nseStep off spoke prev_spoke nf) st) := by
  induction l generalizing st with
  | nil => exact ⟨hEs, hVs⟩
  | cons x xs ih =>
    have hx := hsub x (List.mem_cons_self x xs)
    rcases nseStep_preserves off spoke prev_spoke nf st x hx hEs hVs with ⟨hEs2, hVs2⟩
    exact ih _ (fun y hy => hsub y (List.mem_cons_of_mem x hy)) hEs2 hVs2

lemma foldl2_nseStep_preserves (off : Offset) (spoke prev_spoke : Spoke)
    (fs : List (List Spoke)) (st : ℝ × List OffsetEvent × List OffsetEvent)
    (hsub : ∀ f ∈ fs, f ∈ off.faces)
    (hEs : nseEsInv off spoke prev_spoke st) (hVs : nseVsInv off spoke st) :
    nseEsInv off spoke prev_spoke
      (fs.foldl (fun st f => f.foldl (nseStep off spoke prev_spoke f.length) st) st) ∧
    nseVsInv off spoke
      (fs.foldl (fun st f => f.foldl (nseStep off spoke prev_spoke f.length) st) st) := by
  induction fs generalizing st with
  | nil => exact ⟨hEs, hVs⟩
  | cons f gs ih =>
    have hf := hsub f (List.mem_cons_self f gs)
    rcases foldl_nseStep_preserves off spoke prev_spoke f.length f st
      (fun x hx => ⟨f, hf, hx⟩) hEs hVs with ⟨hEs2, hVs2⟩
    exact ih _ (fun g hg => hsub g (List.mem_cons_of_mem f hg)) hEs2 hVs2

end HWT

namespace HWT

lemma nseSt0_es (off : Offset) (spoke : Spoke) : (nseSt0 off spoke).2.2 = [] := by
  unfold nseSt0
  cases h : Spoke.VertexEvent spoke (nseNext off spoke) off.vmap <;> rfl

lemma nseSt0_vsinv (off : Offset) (spoke : Spoke) :
    nseVsInv off spoke (nseSt0 off spoke) := by
  intro e he
  unfold nseSt0 at he ⊢
  cases h : Spoke.VertexEvent spoke (nseNext off spoke) off.vmap with
  | none =>
    rw [h] at he
    exact absurd he (List.not_mem_nil e)
  | some ev =>
    rw [h] at he
    have he2 : e = ev := by simpa using he
    subst he2
    exact ⟨rfl, rfl⟩

lemma nseSt0_esinv (off : Offset) (spoke prev_spoke : Spoke) :
    nseEsInv off spoke prev_spoke (nseSt0 off spoke) := by
  intro e he
  rw [nseSt0_es] at he
  exact absurd he (List.not_mem_nil e)

lemma nseSt0_fst (off : Offset) (spoke : Spoke) (ev : OffsetEvent)
    (h : Spoke.VertexEvent spoke (nseNext off spoke) off.vmap = some ev) :
    (nseSt0 off spoke).1 = ev.time := by
  unfold nseSt0
  rw [h]

/-- C5 amended: `NextSpokeEvents` considers exactly one vertex event (the one
against the following spoke in the face) and, only if the spoke is reflex,
edge events against every other spoke's advancing edge across all faces,
skipping the spoke itself and its preceding neighbor.  Its returned time is
within tolerance above every found event's time, every event it returns lies
within the fixed tolerance of that time, and every returned edge event is
one of the found edge events — but the returned lists may omit some found
events within tolerance of the minimum (see the counterexample): an edge
event inside the band is kept only when it passes Python's
consecutive-index guard against the previously kept event. -/
theorem nextSpokeEvents_minimum_band (off : Offset) (spoke : Spoke) :
    (spoke.is_reflex = false → (NextSpokeEvents off spoke).2.2 = []) ∧
    (∀ e ∈ (NextSpokeEvents off spoke).2.1,
      Spoke.VertexEvent spoke (nseNext off spoke) off.vmap = some e ∧
      (NextSpokeEvents off spoke).1 = e.time) ∧
    (∀ e ∈ (NextSpokeEvents off spoke).2.2,
      |e.time - (NextSpokeEvents off spoke).1| < TOL ∧
      ∃ o2, (∃ f ∈ off.faces, o2 ∈ f) ∧ ¬(o2 = spoke ∨ o2 = nsePrev off spoke) ∧
        Spoke.EdgeEvent spoke o2 off = some e) ∧
    (∀ e, Spoke.VertexEvent spoke (nseNext off spoke) off.vmap = some e →
      (NextSpokeEvents off spoke).1 ≤ e.time) ∧
    (spoke.is_reflex = true → ∀ f ∈ off.faces, ∀ o2 ∈ f,
      ¬(o2 = spoke ∨ o2 = nsePrev off spoke) →
      ∀ e, Spoke.EdgeEvent spoke o2 off = some e →
      (NextSpokeEvents off spoke).1 ≤ e.time + TOL) := by
  unfold NextSpokeEvents
  by_cases hrefl : spoke.is_reflex = true
  · simp only [hrefl, if_true]
    have hinv := foldl2_nseStep_preserves off spoke (nsePrev off spoke) off.faces
      (nseSt0 off spoke) (fun f hf => hf) (nseSt0_esinv off spoke (nsePrev off spoke))
      (nseSt0_vsinv off spoke)
    refine ⟨?_, ?_, ?_, ?_, ?_⟩
    · intro h
      exact absurd h (by decide)
    · exact hinv.2
    · intro e he
      exact hinv.1 e he
    · intro e hvp
      calc (off.faces.foldl
            (fun st f => f.foldl (nseStep off spoke (nsePrev off spoke) f.length) st)
            (nseSt0 off spoke)).1
          ≤ (nseSt0 off spoke).1 :=
            foldl2_nseStep_fst_le off spoke (nsePrev off spoke) off.faces _
        _ = e.time := nseSt0_fst off spoke e hvp
    · intro _ f hf o2 ho2 hskip e hEE
      exact foldl2_nseStep_fst_le_event off spoke (nsePrev off spoke) off.faces _
        f o2 e hf ho2 hskip hEE
  · have hrefl2 : spoke.is_reflex = false := by
      simpa using hrefl
    simp only [hrefl2, if_false, Bool.false_eq_true]
    refine ⟨fun _ => nseSt0_es off spoke, nseSt0_vsinv off spoke, ?_, ?_, ?_⟩
    · intro e he
      rw [nseSt0_es] at he
      exact absurd he (List.not_mem_nil e)
    · intro e hvp
      exact le_of_eq (nseSt0_fst off spoke e hvp)
    · intro h
      exact h.elim

end HWT

namespace HWT

/-- `_Contains` (art2polyarea.py lines 482-506): does path `i` contain path
`j`, judged from the vertex classification counts `cls` (for a pair `(a,b)`,
`cls (a,b) = (number of b's vertices strictly inside a, number on a's
boundary)`), the signed areas and the vertex counts.  The geometric
point-in-polygon test (`geom.PointInside`, not in src) is abstracted into
`cls`. -/
def _Contains (i j : ℕ) (areas : List ℚ) (lens : List ℕ)
    (cls : ℕ × ℕ → ℕ × ℕ) : Bool :=
  if i = j then false
  else
    let jinsidei := (cls (i, j)).1
    let joni := (cls (i, j)).2
    if jinsidei = 0 ∨ joni = lens.getD j 0 ∨
        (jinsidei : ℚ) / (lens.getD j 0 : ℚ) < 0.55 then false
    else
      let insidej := (cls (j, i)).1
      if (insidej : ℚ) / (lens.getD i 0 : ℚ) > 0.55 then
        decide (areas.getD i 0 > areas.getD j 0)
      else true

/-- `_IsBoundary` (art2polyarea.py lines 509-527): `i` is a boundary when no
unassigned path `j ≠ i` contains it. -/
def _IsBoundary (i n : ℕ) (cont : ℕ → ℕ → Bool) (assigned : List ℕ) : Bool :=
  (List.range n).all fun j =>
    if j = i ∨ j ∈ assigned then true else ! cont j i

/-- One iteration of the hole-collection loop in `_GetHoles`. -/
def ghStep (i n : ℕ) (cont : ℕ → ℕ → Bool) (st : List ℕ × List ℕ) (j : ℕ) :
    List ℕ × List ℕ :=
  if j ∈ st.2 then st
  else if cont i j then
    let directly := (List.range n).all fun k =>
      if k = j ∨ k ∈ st.2 then true else ! (cont i k && cont k j)
    if directly then (st.1 ++ [j], st.2 ++ [j]) else st
  else st

/-- `_GetHoles` (art2polyarea.py lines 530-563): collect the unassigned
paths directly inside path `i`, adding them to the assigned set as found;
returns the hole list together with the grown assigned set (Python mutates
the set in place). -/
def _GetHoles (i n : ℕ) (cont : ℕ → ℕ → Bool) (assigned : List ℕ) :
    List ℕ × List ℕ :=
  (List.range n).foldl (ghStep i n cont) ([], assigned)

/-- One iteration of the assignment scan inside a round of
`CombineSimplePolyAreas` (art2polyarea.py lines 157-167). -/
def rdStep (n : ℕ) (cont : ℕ → ℕ → Bool)
    (st : List (ℕ × List ℕ) × List ℕ) (i : ℕ) : List (ℕ × List ℕ) × List ℕ :=
  if i ∈ st.2 then st
  else if _IsBoundary i n cont st.2 then
    let asg1 := st.2 ++ [i]
    let gh := _GetHoles i n cont asg1
    (st.1 ++ [(i, gh.1)], gh.2)
  else st

/-- One round of the assignment loop. -/
def combineRound (n : ℕ) (cont : ℕ → ℕ → Bool)
    (st : List (ℕ × List ℕ) × List ℕ) : List (ℕ × List ℕ) × List ℕ :=
  (List.range n).foldl (rdStep n cont) st

/-- The `while len(assigned) < n and count < n` loop, with `fuel` remaining
rounds. -/
def combineLoop (n : ℕ) (cont : ℕ → ℕ → Bool) :
    ℕ → List (ℕ × List ℕ) × List ℕ → List (ℕ × List ℕ) × List ℕ
  | 0, st => st
  | fuel + 1, st =>
    if st.2.length < n then combineLoop n cont fuel (combineRound n cont st) else st

/-- `CombineSimplePolyAreas` (art2polyarea.py lines 123-172), restricted to
the assignment loop it performs on the containment data: each output entry
is a boundary index with the list of indices attached to it as holes; the
second component is the warning printed when not all polygons were
assigned.  Signed areas and the vertex classification are inputs here
because `geom.SignedArea` and `geom.PointInside` are not in src. -/
def CombineSimplePolyAreas (n : ℕ) (areas : List ℚ) (lens : List ℕ)
    (cls : ℕ × ℕ → ℕ × ℕ) : List (ℕ × List ℕ) × Option String :=
  let cont := fun i j => _Contains i j areas lens cls
  let final := combineLoop n cont n ([], [])
  (final.1,
    if final.2.length < n then some "Whoops, PathToPolyAreas didn't assign all"
    else none)

/-- Classification counts of two polygons that mutually overlap: 12 of
polygon 1's 20 vertices are inside polygon 0, and exactly 11 of polygon 0's
20 vertices (the 0.55 fraction exactly) are inside polygon 1. -/
def clsMutual : ℕ × ℕ → ℕ × ℕ := fun p =>
  if p = (0, 1) then (12, 0) else if p = (1, 0) then (11, 0) else (0, 0)

end HWT

namespace HWT

/-- C6 counterexample: with the classification counts `clsMutual`, 12/20 of
polygon 1's vertices are inside polygon 0 and exactly 11/20 = 0.55 of
polygon 0's vertices are inside polygon 1, so the mutual-containment test
holds at the 0.55 threshold and polygon 1 has the strictly larger
signed-area magnitude; by the claim the container must then be polygon 1,
i.e. `0 contains 1` must be false — but the code returns true, because its
symmetric test is strict (`> 0.55`, not `≥`). -/
theorem contains_mutual_at_threshold_counterexample :
    (0.55 : ℚ) ≤ (12 : ℚ) / 20 ∧ (0.55 : ℚ) ≤ (11 : ℚ) / 20 ∧
    |(1 : ℚ)| < |(2 : ℚ)| ∧
    _Contains 0 1 [1, 2] [20, 20] clsMutual = true := by
  refine ⟨by norm_num, by norm_num, by norm_num, ?_⟩
  norm_num [_Contains, clsMutual]

/-- C6 amended: `i` contains `j` iff `i ≠ j`, at least one vertex of `j` is
strictly inside `i`, not all of `j`'s vertices lie on `i`'s boundary, the
fraction of `j`'s vertices strictly inside `i` is at least 0.55, and — only
when the symmetric fraction strictly exceeds 0.55 — polygon `i`'s signed
area (not its magnitude) is strictly larger than `j`'s. -/
theorem contains_characterization (i j : ℕ) (areas : List ℚ) (lens : List ℕ)
    (cls : ℕ × ℕ → ℕ × ℕ) :
    _Contains i j areas lens cls = true ↔
      i ≠ j ∧ (cls (i, j)).1 ≠ 0 ∧ (cls (i, j)).2 ≠ lens.getD j 0 ∧
      (0.55 : ℚ) ≤ ((cls (i, j)).1 : ℚ) / ((lens.getD j 0 : ℕ) : ℚ) ∧
      ((0.55 : ℚ) < ((cls (j, i)).1 : ℚ) / ((lens.getD i 0 : ℕ) : ℚ) →
        areas.getD j 0 < areas.getD i 0) := by
  unfold _Contains
  by_cases h1 : i = j
  · subst h1
    simp [_Contains]
  rw [if_neg h1]
  dsimp only
  split_ifs with h2 h3
  · simp only [Bool.false_eq_true, false_iff]
    rintro ⟨hne, hin, hon, hfrac, _⟩
    rcases h2 with h2 | h2 | h2
    · exact hin h2
    · exact hon h2
    · exact absurd hfrac (not_le.mpr h2)
  · push_neg at h2
    simp only [decide_eq_true_eq]
    constructor
    · intro hlt
      exact ⟨h1, h2.1, h2.2.1, h2.2.2, fun _ => hlt⟩
    · rintro ⟨_, _, _, _, himp⟩
      exact himp h3
  · push_neg at h2
    exact ⟨fun _ => ⟨h1, h2.1, h2.2.1, h2.2.2, fun hc => absurd hc h3⟩, fun _ => rfl⟩

/-- C7 counterexample: with the classification counts `clsMutual` the
containment relation is cyclic (each polygon contains the other), so no
round makes progress: the classifier returns an empty output — polygons 0
and 1 appear zero times, not exactly once — together with the fixed warning
string, which does not carry the set of unassigned indices. -/
theorem combine_unassigned_dropped :
    CombineSimplePolyAreas 2 [1, 2] [20, 20] clsMutual =
      ([], some "Whoops, PathToPolyAreas didn't assign all") ∧
    _Contains 0 1 [1, 2] [20, 20] clsMutual = true ∧
    _Contains 1 0 [1, 2] [20, 20] clsMutual = true := by
  refine ⟨?_, ?_, ?_⟩
  · norm_num [CombineSimplePolyAreas, combineLoop, combineRound, rdStep,
      _IsBoundary, _GetHoles, ghStep, _Contains, clsMutual,
      List.range_succ, List.range_zero, Prod.ext_iff]
  · norm_num [_Contains, clsMutual]
  · norm_num [_Contains, clsMutual]

end HWT

namespace HWT

/-- How many times polygon `i` appears in the classifier output, counting
both appearances as an outer boundary and as a hole. -/
def occCount (i : ℕ) (out : List (ℕ × List ℕ)) : ℕ :=
  (out.map fun pa => (if pa.1 = i then 1 else 0) + pa.2.count i).sum

lemma occCount_append (i b : ℕ) (hs : List ℕ) (out : List (ℕ × List ℕ)) :
    occCount i (out ++ [(b, hs)]) =
      occCount i out + ((if b = i then 1 else 0) + hs.count i) := by
  simp [occCount]

lemma ghStep_cases (i n : ℕ) (cont : ℕ → ℕ → Bool) (a b : List ℕ) (x : ℕ) :
    ghStep i n cont (a, b) x = (a, b) ∨
    (x ∉ b ∧ ghStep i n cont (a, b) x = (a ++ [x], b ++ [x])) := by
  unfold ghStep
  dsimp only
  split_ifs with h1 h2 h3
  · exact Or.inl rfl
  · exact Or.inr ⟨h1, rfl⟩
  · exact Or.inl rfl
  · exact Or.inl rfl

lemma ghFold_delta (i n : ℕ) (cont : ℕ → ℕ → Bool) (l : List ℕ) :
    ∀ a b : List ℕ, ∃ d, l.foldl (ghStep i n cont) (a, b) = (a ++ d, b ++ d) ∧
      d.Nodup ∧ ∀ j ∈ d, j ∈ l ∧ j ∉ b := by
  induction l with
  | nil =>
    intro a b
    exact ⟨[], by simp, List.nodup_nil, by simp⟩
  | cons x xs ih =>
    intro a b
    rw [List.foldl_cons]
    rcases ghStep_cases i n cont a b x with h | ⟨hxb, h⟩
    · rw [h]
      rcases ih a b with ⟨d, hfold, hnd, hprop⟩
      exact ⟨d, hfold, hnd, fun j hj =>
        ⟨List.mem_cons_of_mem x (hprop j hj).1, (hprop j hj).2⟩⟩
    · rw [h]
      rcases ih (a ++ [x]) (b ++ [x]) with ⟨d, hfold, hnd, hprop⟩
      refine ⟨x :: d, ?_, ?_, ?_⟩
      · rw [hfold]
        simp
      · exact List.nodup_cons.mpr
          ⟨fun hxd => (hprop x hxd).2 (by simp), hnd⟩
      · intro j hj
        rcases List.mem_cons.mp hj with rfl | hj
        · exact ⟨by simp, hxb⟩
        · exact ⟨List.mem_cons_of_mem x (hprop j hj).1,
            fun hjb => (hprop j hj).2 (by simp [hjb])⟩

lemma getHoles_delta (i n : ℕ) (cont : ℕ → ℕ → Bool) (b : List ℕ) :
    ∃ d, _GetHoles i n cont b = (d, b ++ d) ∧ d.Nodup ∧
      ∀ j ∈ d, j < n ∧ j ∉ b := by
  rcases ghFold_delta i n cont (List.range n) [] b with ⟨d, hf, hnd, hp⟩
  refine ⟨d, ?_, hnd, fun j hj => ⟨List.mem_range.mp (hp j hj).1, (hp j hj).2⟩⟩
  unfold _GetHoles
  rw [hf]
  simp

/-- Invariant of the assignment loop: the assigned list has no duplicates,
all its members are valid polygon indices, and a polygon occurs in the
output exactly once if assigned and never otherwise. -/
def combInv (n : ℕ) (st : List (ℕ × List ℕ) × List ℕ) : Prop :=
  st.2.Nodup ∧ (∀ j ∈ st.2, j < n) ∧
  ∀ i : ℕ, occCount i st.1 = if i ∈ st.2 then 1 else 0

lemma rdStep_preserves (n : ℕ) (cont : ℕ → ℕ → Bool)
    (st : List (ℕ × List ℕ) × List ℕ) (i : ℕ) (hin : i < n)
    (h : combInv n st) : combInv n (rdStep n cont st i) := by
  unfold rdStep
  split_ifs with h1 h2
  · exact h
  · rcases getHoles_delta i n cont (st.2 ++ [i]) with ⟨d, hgh, hnd, hp⟩
    dsimp only
    rw [hgh]
    dsimp only
    refine ⟨?_, ?_, ?_⟩
    · rw [List.nodup_append]
      refine ⟨List.nodup_append.mpr ⟨h.1, List.nodup_singleton i, ?_⟩, hnd, ?_⟩
      · intro a ha hb
        rw [List.mem_singleton] at hb
        exact h1 (hb ▸ ha)
      · intro a ha hb
        exact (hp a hb).2 ha
    · intro j hj
      rcases List.mem_append.mp hj with hj | hj
      · rcases List.mem_append.mp hj with hj | hj
        · exact h.2.1 j hj
        · rw [List.mem_singleton] at hj
          exact hj ▸ hin
      · exact (hp j hj).1
    · intro x
      rw [occCount_append, h.2.2 x]
      by_cases hx2 : x ∈ st.2
      · have hxi : ¬ i = x := fun he => h1 (he ▸ hx2)
        have hxd : x ∉ d := fun hxd => (hp x hxd).2 (by simp [hx2])
        have hmem : x ∈ st.2 ++ [i] ++ d := by simp [hx2]
        simp [hx2, hxi, List.count_eq_zero.mpr hxd, hmem]
      · by_cases hxi : x = i
        · subst hxi
          have hxd : x ∉ d := fun hxd => (hp x hxd).2 (by simp)
          have hmem : x ∈ st.2 ++ [x] ++ d := by simp
          simp [hx2, List.count_eq_zero.mpr hxd, hmem]
        · have hix : ¬ i = x := Ne.symm hxi
          by_cases hxd : x ∈ d
          · have hcnt : d.count x = 1 := List.count_eq_one_of_mem hnd hxd
            simp [hx2, hix, hxd, hcnt]
          · simp [hx2, hxi, hix, hxd, List.count_eq_zero.mpr hxd]
  · exact h

end HWT

namespace HWT

lemma combineRound_preserves (n : ℕ) (cont : ℕ → ℕ → Bool)
    (st : List (ℕ × List ℕ) × List ℕ) (h : combInv n st) :
    combInv n (combineRound n cont st) := by
  unfold combineRound
  have hgen : ∀ (l : List ℕ), (∀ i ∈ l, i < n) → ∀ st, combInv n st →
      combInv n (l.foldl (rdStep n cont) st) := by
    intro l
    induction l with
    | nil => exact fun _ st h => h
    | cons x xs ih =>
      intro hl st hst
      exact ih (fun i hi => hl i (List.mem_cons_of_mem x hi)) _
        (rdStep_preserves n cont st x (hl x (List.mem_cons_self x xs)) hst)
  exact hgen (List.range n) (fun i hi => List.mem_range.mp hi) st h

lemma combineLoop_preserves (n : ℕ) (cont : ℕ → ℕ → Bool) (fuel : ℕ)
    (st : List (ℕ × List ℕ) × List ℕ) (h : combInv n st) :
    combInv n (combineLoop n cont fuel st) := by
  induction fuel generalizing st with
  | zero => exact h
  | succ fuel ih =>
    unfold combineLoop
    split_ifs with hlt
    · exact ih _ (combineRound_preserves n cont st h)
    · exact h

lemma combInv_init (n : ℕ) : combInv n ([], []) := by
  refine ⟨List.nodup_nil, by simp, fun i => ?_⟩
  simp [occCount]

/-- C7 amended: the assignment loop terminates after at most N rounds (it is
a bounded loop by construction); every input polygon appears in the output
at most once, and the classifier reports no warning exactly when every one
of the N polygons appears exactly once (as a boundary or as a hole).  When
a round makes no progress (a cyclic containment relation), the code prints
only the fixed message "Whoops, PathToPolyAreas didn't assign all" — the
unassigned indices are not reported and their polygons are omitted from the
output (see the counterexample). -/
theorem combine_assignment_characterization (n : ℕ) (areas : List ℚ)
    (lens : List ℕ) (cls : ℕ × ℕ → ℕ × ℕ) :
    (∀ i : ℕ, occCount i (CombineSimplePolyAreas n areas lens cls).1 ≤ 1) ∧
    ((CombineSimplePolyAreas n areas lens cls).2 = none ↔
      ∀ i < n, occCount i (CombineSimplePolyAreas n areas lens cls).1 = 1) := by
  have hinv : combInv n (combineLoop n
      (fun i j => _Contains i j areas lens cls) n ([], [])) :=
    combineLoop_preserves n _ n ([], []) (combInv_init n)
  unfold CombineSimplePolyAreas
  dsimp only
  set final := combineLoop n (fun i j => _Contains i j areas lens cls) n ([], [])
    with hfinal
  constructor
  · intro i
    rw [hinv.2.2 i]
    split_ifs <;> norm_num
  · constructor
    · intro hnone i hi
      have hlen : ¬ final.2.length < n := by
        intro hc
        rw [if_pos hc] at hnone
        cases hnone
      have hsub : final.2.toFinset ⊆ Finset.range n := fun x hx =>
        Finset.mem_range.mpr (hinv.2.1 x (List.mem_toFinset.mp hx))
      have hcard : (Finset.range n).card ≤ final.2.toFinset.card := by
        rw [List.toFinset_card_of_nodup hinv.1, Finset.card_range]
        exact not_lt.mp hlen
      have heq : final.2.toFinset = Finset.range n :=
        Finset.eq_of_subset_of_card_le hsub hcard
      have hmem : i ∈ final.2 := by
        have : i ∈ final.2.toFinset := by
          rw [heq]
          exact Finset.mem_range.mpr hi
        exact List.mem_toFinset.mp this
      rw [hinv.2.2 i, if_pos hmem]
    · intro hall
      have hmem : ∀ i < n, i ∈ final.2 := by
        intro i hi
        have h1 := hall i hi
        rw [hinv.2.2 i] at h1
        by_contra hmem
        rw [if_neg hmem] at h1
        cases h1
      have hsub : Finset.range n ⊆ final.2.toFinset := fun x hx =>
        List.mem_toFinset.mpr (hmem x (Finset.mem_range.mp hx))
      have hlen : n ≤ final.2.length := by
        calc n = (Finset.range n).card := (Finset.card_range n).symm
          _ ≤ final.2.toFinset.card := Finset.card_le_card hsub
          _ ≤ final.2.length := final.2.toFinset_card_le
      rw [if_neg (not_lt.mpr hlen)]

end HWT

namespace HWT

lemma Angle_range (a b c : ℕ) (vmap : List Pt) :
    0 ≤ Angle a b c vmap ∧ Angle a b c vmap ≤ 180 := by
  unfold Angle
  dsimp only
  split_ifs with h
  · norm_num
  · constructor
    · exact mul_nonneg (by positivity) (Real.arccos_nonneg _)
    · exact le_trans
        (mul_le_mul_of_nonneg_left (Real.arccos_le_pi _) (by positivity))
        (le_of_eq (div_mul_cancel₀ 180 Real.pi_ne_zero))

end HWT

namespace HWT

/-- C8: a spoke's speed equals `1/sin(a/2)` for the interior angle `a` in
degrees computed from `(prev, v, next)` (the modelled `Angle` lies in
`[0, 180]`), except that when `|sin(a/2)|` is below the tolerance the speed
is clamped to the sentinel `1e7`; consequently the speed is always strictly
positive and bounded by the finite sentinel `1e7 = 1/TOL` — never an
infinity. -/
theorem spoke_speed_spec (v prev next face index : ℕ) (vmap : List Pt) :
    (spokeInit v prev next face index vmap).speed =
      (if |Real.sin (Real.pi * Angle prev v next vmap / 360)| < TOL then 1e7
       else 1 / Real.sin (Real.pi * Angle prev v next vmap / 360)) ∧
    0 < (spokeInit v prev next face index vmap).speed ∧
    (spokeInit v prev next face index vmap).speed ≤ 1e7 := by
  have hang := Angle_range prev v next vmap
  have hs0 : 0 ≤ Real.sin (Real.pi * Angle prev v next vmap / 360) := by
    apply Real.sin_nonneg_of_nonneg_of_le_pi
    · have := mul_nonneg Real.pi_pos.le hang.1
      linarith
    · rw [div_le_iff (by norm_num : (0 : ℝ) < 360)]
      nlinarith [Real.pi_pos, hang.1, hang.2]
  have hdef : (spokeInit v prev next face index vmap).speed =
      if |Real.sin (Real.pi * Angle prev v next vmap / 360)| < TOL then 1e7
      else 1 / Real.sin (Real.pi * Angle prev v next vmap / 360) := rfl
  refine ⟨hdef, ?_, ?_⟩
  · rw [hdef]
    split_ifs with h
    · norm_num
    · have hts : TOL ≤ Real.sin (Real.pi * Angle prev v next vmap / 360) := by
        rwa [abs_of_nonneg hs0, not_lt] at h
      exact one_div_pos.mpr (lt_of_lt_of_le TOL_pos hts)
  · rw [hdef]
    split_ifs with h
    · norm_num
    · have hts : TOL ≤ Real.sin (Real.pi * Angle prev v next vmap / 360) := by
        rwa [abs_of_nonneg hs0, not_lt] at h
      calc 1 / Real.sin (Real.pi * Angle prev v next vmap / 360) ≤ 1 / TOL :=
            one_div_le_one_div_of_le TOL_pos hts
        _ = 1e7 := by norm_num [TOL]

end HWT

namespace HWT

/-- `ApproxEqPts` (offset.py lines 499-511): both coordinates closer than
`TOL`. -/
noncomputable def ApproxEqPts (a b : Pt) : Prop :=
  |a.1 - b.1| < TOL ∧ |a.2 - b.2| < TOL

noncomputable instance (a b : Pt) : Decidable (ApproxEqPts a b) :=
  Classical.propDecidable _

/-- The spokes of one face built by `Offset.__init__` (offset.py lines
290-312): for a CCW face, spoke `i` is built from `(f[i], f[i-1], f[i+1])`;
for a CW face (hole) the neighbors are swapped. -/
noncomputable def mkFaceSpokes (f : List ℕ) (findex : ℕ) (vmap : List Pt)
    (cw : Bool) : List Spoke :=
  (List.range f.length).map fun i =>
    if cw then
      spokeInit (f.getD i 0) (f.getD ((i + 1) % f.length) 0)
        (f.getD ((i + (f.length - 1)) % f.length) 0) findex i vmap
    else
      spokeInit (f.getD i 0) (f.getD ((i + (f.length - 1)) % f.length) 0)
        (f.getD ((i + 1) % f.length) 0) findex i vmap

/-- `Offset.__init__` (offset.py lines 271-312): single-vertex CCW faces
become points, two-vertex ones become lines, all others (and every CW face)
become spoke lists; `endtime` starts at the sentinel 1e8. -/
noncomputable def offsetInit (ccwfaces cwfaces : List (List ℕ)) (vmap : List Pt) :
    Offset :=
  let st1 := ccwfaces.foldl
    (fun (st : List (List Spoke) × List (ℕ × ℕ) × List ℕ × ℕ) f =>
      if f.length = 1 then (st.1, st.2.1, st.2.2.1 ++ [f.getD 0 0], st.2.2.2)
      else if f.length = 2 then
        (st.1, st.2.1 ++ [(f.getD 0 0, f.getD 1 0)], st.2.2.1, st.2.2.2)
      else (st.1 ++ [mkFaceSpokes f st.2.2.2 vmap false], st.2.1, st.2.2.1,
        st.2.2.2 + 1))
    ([], [], [], 0)
  let st2 := cwfaces.foldl
    (fun (st : List (List Spoke) × List (ℕ × ℕ) × List ℕ × ℕ) f =>
      (st.1 ++ [mkFaceSpokes f st.2.2.2 vmap true], st.2.1, st.2.2.1,
        st.2.2.2 + 1)) st1
  .mk vmap st2.1 st2.2.1 st2.2.2.1 1e8 none

/-- The merge loop of `Offset.FaceAtSpokeEnds` (offset.py lines 435-444):
evaluate each spoke's endpoint at time `t` and drop a point equal (within
tolerance) to its predecessor, or equal to the first point when it is the
last one. -/
noncomputable def faceVsAux (vmap : List Pt) (f : List Spoke) (t : ℝ) : List Pt :=
  (List.range f.length).foldl
    (fun newfacevs i =>
      let v := (f.getD i default).EndPoint t vmap
      match newfacevs.getLast? with
      | none => [v]
      | some lastv =>
        if ¬ ApproxEqPts v lastv then
          if ¬ (i = f.length - 1 ∧ ApproxEqPts v (newfacevs.getD 0 (0, 0))) then
            newfacevs ++ [v]
          else newfacevs
        else newfacevs)
    []

/-- `Offset.FaceAtSpokeEnds` (offset.py lines 423-450): the merged endpoint
list is appended to the coordinate table and the new face is the list of the
appended indices. -/
noncomputable def FaceAtSpokeEnds (vmap : List Pt) (f : List Spoke) (t : ℝ) :
    List ℕ × List Pt :=
  let nfv := faceVsAux vmap f t
  ((List.range nfv.length).map fun k => vmap.length + k, vmap ++ nfv)

/-- `Offset.MakeNewFaces` (offset.py lines 452-465).  Mark the bug: the code
accumulates with `ans += newf`, so the returned value is a flat list of
vertex indices — not the "list of list of int" its docstring promises. -/
noncomputable def MakeNewFaces (faces : List (List Spoke)) (vmap : List Pt)
    (t : ℝ) : List ℕ × List Pt :=
  faces.foldl
    (fun st f =>
      let r := FaceAtSpokeEnds st.2 f t
      (st.1 ++ r.1, r.2))
    ([], vmap)

/-- One step of the event scan in `Offset.Build` (offset.py lines 376-389):
the same tolerance banding as in `NextSpokeEvents`, now across spokes and
faces, collecting both vertex and edge events. -/
noncomputable def buildScanStep (off : Offset)
    (st : ℝ × List OffsetEvent × List OffsetEvent) (s : Spoke) :
    ℝ × List OffsetEvent × List OffsetEvent :=
  let r := NextSpokeEvents off s
  let st1 := if r.1 < st.1 - TOL then
      (r.1, ([] : List OffsetEvent), ([] : List OffsetEvent))
    else st
  if |r.1 - st1.1| < TOL then (st1.1, st1.2.1 ++ r.2.1, st1.2.2 ++ r.2.2)
  else st1

/-- The full event scan of `Offset.Build`. -/
noncomputable def buildScan (off : Offset) : ℝ × List OffsetEvent × List OffsetEvent :=
  off.faces.foldl (fun st f => f.foldl (buildScanStep off) st) (1e100, [], [])

/-- The tail of `Offset.Build` (offset.py lines 412-421): Python iterates
`for f in newfaces: if len(f) >= 3`, but `newfaces` is the flat list of ints
produced by `MakeNewFaces`, so a nonempty `newfaces` raises `TypeError`
(`len` of an `int`); only an empty list falls through, with no face
surviving, and the build terminates. -/
noncomputable def buildFinish (off : Offset) (endt : ℝ) (newfaces : List ℕ)
    (vmap2 : List Pt) : Except String Offset :=
  if newfaces = [] then
    .ok (.mk vmap2 off.faces off.lines off.points endt off.next)
  else .error "TypeError: object of type int has no len"

/-- `Offset.Build` (offset.py lines 365-421).  The event scan fixes
`endtime`; depending on the branch the faces are advanced by
`MakeNewFaces` (and for a same-face edge event `SplitFace` is invoked on the
flattened list, which in Python raises `TypeError` at `len(f)` /
`newfaces[findex]`).  The chained recursion of the docstring is never
reached, because any nonempty flat `newfaces` raises before the recursion
guard is evaluated. -/
noncomputable def Build (off : Offset) (target : ℝ) : Except String Offset :=
  let scan := buildScan off
  let bestt := scan.1
  let ve := scan.2.1
  let ee := scan.2.2
  if target < bestt then
    let r := MakeNewFaces off.faces off.vmap target
    buildFinish off target r.1 r.2
  else if ve ≠ [] ∧ ee = [] then
    let r := MakeNewFaces off.faces off.vmap bestt
    buildFinish off bestt r.1 r.2
  else
    let step := ee.foldl
      (fun (acc : Except String (List ℕ × List Pt)) ev =>
        match acc with
        | .error e => .error e
        | .ok st =>
          if ev.spoke.face = ev.other.face then
            .error "TypeError: SplitFace applied to the flattened face list"
          else
            let r := MakeNewFaces off.faces st.2 bestt
            .ok (st.1 ++ r.1, r.2))
      (.ok ([], off.vmap))
    match step with
    | .error e => .error e
    | .ok st => buildFinish off bestt st.1 st.2

end HWT

namespace HWT

lemma sqrt_two_pos : 0 < Real.sqrt 2 := Real.sqrt_pos.mpr (by norm_num)

lemma sqrt_two_mul_self : Real.sqrt 2 * Real.sqrt 2 = 2 :=
  Real.mul_self_sqrt (by norm_num)

lemma sqrt_half : Real.sqrt (1 / 2) = Real.sqrt 2 / 2 := by
  refine sqrt_of_sq (Real.sqrt 2 / 2) (1 / 2) (by positivity) ?_
  rw [div_pow, Real.sq_sqrt (by norm_num : (0 : ℝ) ≤ 2)]
  norm_num

lemma one_le_sqrt_two : 1 ≤ Real.sqrt 2 := by
  rw [show (1 : ℝ) = Real.sqrt 1 by rw [Real.sqrt_one]]
  exact Real.sqrt_le_sqrt (by norm_num)

lemma half_div_sqrt_half : (1 / 2 : ℝ) / (Real.sqrt 2 / 2) = Real.sqrt 2 / 2 := by
  have hne : Real.sqrt 2 ≠ 0 := ne_of_gt sqrt_two_pos
  field_simp

lemma one_div_sqrt_half : (1 : ℝ) / (Real.sqrt 2 / 2) = Real.sqrt 2 := by
  have hne : Real.sqrt 2 ≠ 0 := ne_of_gt sqrt_two_pos
  field_simp

lemma sqrt_half_div_sqrt_two : Real.sqrt 2 / 2 / Real.sqrt 2 = 1 / 2 := by
  have hne : Real.sqrt 2 ≠ 0 := ne_of_gt sqrt_two_pos
  field_simp
  ring

lemma sin_ninety_half : Real.sin (Real.pi * 90 / 360) = Real.sqrt 2 / 2 := by
  rw [show Real.pi * 90 / 360 = Real.pi / 4 by ring]
  exact Real.sin_pi_div_four

lemma sqrt_half_not_small : ¬ |Real.sqrt 2 / 2| < TOL := by
  rw [abs_of_pos (by positivity)]
  intro h
  rw [TOL] at h
  nlinarith [one_le_sqrt_two]

/-- Coordinate table of the CCW unit square. -/
noncomputable def squareVmap : List Pt := [(0, 0), (1, 0), (1, 1), (0, 1)]

/-- The initial offset generation of the unit square. -/
noncomputable def squareOff : Offset := offsetInit [[0, 1, 2, 3]] [] squareVmap

lemma sq_angle0 : Angle 3 0 1 squareVmap = 90 := by
  simp only [Angle, squareVmap, List.getD_cons_zero, List.getD_cons_succ]
  norm_num [Sub2, Length2, Real.sqrt_one]
  field_simp
  ring

end HWT

namespace HWT

lemma sq_angle1 : Angle 0 1 2 squareVmap = 90 := by
  simp only [Angle, squareVmap, List.getD_cons_zero, List.getD_cons_succ]
  norm_num [Sub2, Length2, Real.sqrt_one]
  field_simp
  ring

lemma sq_angle2 : Angle 1 2 3 squareVmap = 90 := by
  simp only [Angle, squareVmap, List.getD_cons_zero, List.getD_cons_succ]
  norm_num [Sub2, Length2, Real.sqrt_one]
  field_simp
  ring

lemma sq_angle3 : Angle 2 3 0 squareVmap = 90 := by
  simp only [Angle, squareVmap, List.getD_cons_zero, List.getD_cons_succ]
  norm_num [Sub2, Length2, Real.sqrt_one]
  field_simp
  ring

lemma sq_ccw0 : Ccw 1 0 3 squareVmap = false := by
  simp only [Ccw, squareVmap, List.getD_cons_zero, List.getD_cons_succ]
  norm_num [Perp2, Sub2, TOL]

lemma sq_ccw1 : Ccw 2 1 0 squareVmap = false := by
  simp only [Ccw, squareVmap, List.getD_cons_zero, List.getD_cons_succ]
  norm_num [Perp2, Sub2, TOL]

lemma sq_ccw2 : Ccw 3 2 1 squareVmap = false := by
  simp only [Ccw, squareVmap, List.getD_cons_zero, List.getD_cons_succ]
  norm_num [Perp2, Sub2, TOL]

lemma sq_ccw3 : Ccw 0 3 2 squareVmap = false := by
  simp only [Ccw, squareVmap, List.getD_cons_zero, List.getD_cons_succ]
  norm_num [Perp2, Sub2, TOL]

end HWT

namespace HWT

/-- The four spokes of the unit square: bisector directions and speed √2. -/
noncomputable def sqS0 : Spoke :=
  ⟨0, false, (Real.sqrt 2 / 2, Real.sqrt 2 / 2), Real.sqrt 2, 0, 0⟩

/-- Square spoke at `(1,0)`. -/
noncomputable def sqS1 : Spoke :=
  ⟨1, false, (-(Real.sqrt 2 / 2), Real.sqrt 2 / 2), Real.sqrt 2, 0, 1⟩

/-- Square spoke at `(1,1)`. -/
noncomputable def sqS2 : Spoke :=
  ⟨2, false, (-(Real.sqrt 2 / 2), -(Real.sqrt 2 / 2)), Real.sqrt 2, 0, 2⟩

/-- Square spoke at `(0,1)`. -/
noncomputable def sqS3 : Spoke :=
  ⟨3, false, (Real.sqrt 2 / 2, -(Real.sqrt 2 / 2)), Real.sqrt 2, 0, 3⟩

lemma half_mul_sqrt_two : (1 / 2 : ℝ) * Real.sqrt 2 = Real.sqrt 2 / 2 := by ring

lemma sq_getD0 : squareVmap.getD 0 (0, 0) = (0, 0) := rfl

lemma sq_getD1 : squareVmap.getD 1 (0, 0) = (1, 0) := rfl

lemma sq_getD2 : squareVmap.getD 2 (0, 0) = (1, 1) := rfl

lemma sq_getD3 : squareVmap.getD 3 (0, 0) = (0, 1) := rfl

lemma sq_spokeInit0 : spokeInit 0 3 1 0 0 squareVmap = sqS0 := by
  simp only [spokeInit, sq_getD0, sq_getD1, sq_getD3, sq_angle0, sq_ccw0,
    sin_ninety_half, sqS0]
  norm_num [Normalized2, Sub2, Length2, Real.sqrt_one, sqrt_half,
    half_div_sqrt_half, one_div_sqrt_half, sqrt_half_not_small, neg_div,
    half_mul_sqrt_two, Prod.ext_iff, Spoke.mk.injEq]

lemma sq_spokeInit1 : spokeInit 1 0 2 0 1 squareVmap = sqS1 := by
  simp only [spokeInit, sq_getD0, sq_getD1, sq_getD2, sq_angle1, sq_ccw1,
    sin_ninety_half, sqS1]
  norm_num [Normalized2, Sub2, Length2, Real.sqrt_one, sqrt_half,
    half_div_sqrt_half, one_div_sqrt_half, sqrt_half_not_small, neg_div,
    half_mul_sqrt_two, Prod.ext_iff, Spoke.mk.injEq]

lemma sq_spokeInit2 : spokeInit 2 1 3 0 2 squareVmap = sqS2 := by
  simp only [spokeInit, sq_getD1, sq_getD2, sq_getD3, sq_angle2, sq_ccw2,
    sin_ninety_half, sqS2]
  norm_num [Normalized2, Sub2, Length2, Real.sqrt_one, sqrt_half,
    half_div_sqrt_half, one_div_sqrt_half, sqrt_half_not_small, neg_div,
    half_mul_sqrt_two, Prod.ext_iff, Spoke.mk.injEq]

lemma sq_spokeInit3 : spokeInit 3 2 0 0 3 squareVmap = sqS3 := by
  simp only [spokeInit, sq_getD0, sq_getD2, sq_getD3, sq_angle3, sq_ccw3,
    sin_ninety_half, sqS3]
  norm_num [Normalized2, Sub2, Length2, Real.sqrt_one, sqrt_half,
    half_div_sqrt_half, one_div_sqrt_half, sqrt_half_not_small, neg_div,
    half_mul_sqrt_two, Prod.ext_iff, Spoke.mk.injEq]

lemma squareOff_eq : squareOff =
    .mk squareVmap [[sqS0, sqS1, sqS2, sqS3]] [] [] 1e8 none := by
  unfold squareOff offsetInit mkFaceSpokes
  norm_num [List.range_succ, sq_spokeInit0, sq_spokeInit1, sq_spokeInit2,
    sq_spokeInit3]

end HWT

namespace HWT

lemma sq_sqrt_two_sq : Real.sqrt 2 ^ 2 = 2 := Real.sq_sqrt (by norm_num)

lemma sqrt_half_mul_self : Real.sqrt 2 / 2 * (Real.sqrt 2 / 2) = 1 / 2 := by
  rw [div_mul_div_comm, sqrt_two_mul_self]
  norm_num

lemma sqrt_half_sq : (Real.sqrt 2 / 2) ^ 2 = 1 / 2 := by
  rw [div_pow, sq_sqrt_two_sq]
  norm_num

lemma sq_ve0 : Spoke.VertexEvent sqS0 sqS1 squareVmap =
    some ⟨true, 1 / 2, (1 / 2, 1 / 2), sqS0, sqS1⟩ := by
  simp only [Spoke.VertexEvent, sqS0, sqS1, sq_getD0, sq_getD1]
  norm_num [Perp2, Sub2, Add2, LinInterp2, Length2, TOL, sq_sqrt_two_sq,
    sqrt_half_mul_self, sqrt_half_sq, Real.sqrt_nonneg, Real.sqrt_one,
    sqrt_half_div_sqrt_two, OffsetEvent.mk.injEq, Prod.ext_iff]
  intro h
  exact absurd h (not_lt.mpr (by positivity))

end HWT

namespace HWT

lemma sq_ve1 : Spoke.VertexEvent sqS1 sqS2 squareVmap =
    some ⟨true, 1 / 2, (1 / 2, 1 / 2), sqS1, sqS2⟩ := by
  simp only [Spoke.VertexEvent, sqS1, sqS2, sq_getD1, sq_getD2]
  norm_num [Perp2, Sub2, Add2, LinInterp2, Length2, TOL, sq_sqrt_two_sq,
    sqrt_half_mul_self, sqrt_half_sq, Real.sqrt_nonneg, Real.sqrt_one,
    sqrt_half_div_sqrt_two, OffsetEvent.mk.injEq, Prod.ext_iff]
  intro h
  exact absurd h (not_lt.mpr (by positivity))

lemma sq_ve2 : Spoke.VertexEvent sqS2 sqS3 squareVmap =
    some ⟨true, 1 / 2, (1 / 2, 1 / 2), sqS2, sqS3⟩ := by
  simp only [Spoke.VertexEvent, sqS2, sqS3, sq_getD2, sq_getD3]
  norm_num [Perp2, Sub2, Add2, LinInterp2, Length2, TOL, sq_sqrt_two_sq,
    sqrt_half_mul_self, sqrt_half_sq, Real.sqrt_nonneg, Real.sqrt_one,
    sqrt_half_div_sqrt_two, OffsetEvent.mk.injEq, Prod.ext_iff]
  intro h
  exact absurd h (not_lt.mpr (by positivity))

lemma sq_ve3 : Spoke.VertexEvent sqS3 sqS0 squareVmap =
    some ⟨true, 1 / 2, (1 / 2, 1 / 2), sqS3, sqS0⟩ := by
  simp only [Spoke.VertexEvent, sqS3, sqS0, sq_getD3, sq_getD0]
  norm_num [Perp2, Sub2, Add2, LinInterp2, Length2, TOL, sq_sqrt_two_sq,
    sqrt_half_mul_self, sqrt_half_sq, Real.sqrt_nonneg, Real.sqrt_one,
    sqrt_half_div_sqrt_two, OffsetEvent.mk.injEq, Prod.ext_iff]
  intro h
  exact absurd h (not_lt.mpr (by positivity))

end HWT

namespace HWT

/-- The square's offset generation written out: four spokes in one face. -/
noncomputable def squareOffE : Offset :=
  .mk squareVmap [[sqS0, sqS1, sqS2, sqS3]] [] [] 1e8 none

lemma squareOff_eqE : squareOff = squareOffE := by
  rw [squareOff_eq]
  rfl

lemma sqE_faces : squareOffE.faces = [[sqS0, sqS1, sqS2, sqS3]] := rfl

lemma sqE_vmap : squareOffE.vmap = squareVmap := rfl

lemma sq_nse0 : NextSpokeEvents squareOffE sqS0 =
    (1 / 2, [⟨true, 1 / 2, (1 / 2, 1 / 2), sqS0, sqS1⟩], []) := by
  have hnext : nseNext squareOffE sqS0 = sqS1 := by
    simp [nseNext, nseFace, sqE_faces, show sqS0.face = 0 from rfl,
      show sqS0.index = 0 from rfl]
  simp [NextSpokeEvents, nseSt0, hnext, sqE_vmap, sq_ve0,
    show sqS0.is_reflex = false from rfl]

lemma sq_nse1 : NextSpokeEvents squareOffE sqS1 =
    (1 / 2, [⟨true, 1 / 2, (1 / 2, 1 / 2), sqS1, sqS2⟩], []) := by
  have hnext : nseNext squareOffE sqS1 = sqS2 := by
    simp [nseNext, nseFace, sqE_faces, show sqS1.face = 0 from rfl,
      show sqS1.index = 1 from rfl]
  simp [NextSpokeEvents, nseSt0, hnext, sqE_vmap, sq_ve1,
    show sqS1.is_reflex = false from rfl]

lemma sq_nse2 : NextSpokeEvents squareOffE sqS2 =
    (1 / 2, [⟨true, 1 / 2, (1 / 2, 1 / 2), sqS2, sqS3⟩], []) := by
  have hnext : nseNext squareOffE sqS2 = sqS3 := by
    simp [nseNext, nseFace, sqE_faces, show sqS2.face = 0 from rfl,
      show sqS2.index = 2 from rfl]
  simp [NextSpokeEvents, nseSt0, hnext, sqE_vmap, sq_ve2,
    show sqS2.is_reflex = false from rfl]

lemma sq_nse3 : NextSpokeEvents squareOffE sqS3 =
    (1 / 2, [⟨true, 1 / 2, (1 / 2, 1 / 2), sqS3, sqS0⟩], []) := by
  have hnext : nseNext squareOffE sqS3 = sqS0 := by
    simp [nseNext, nseFace, sqE_faces, show sqS3.face = 0 from rfl,
      show sqS3.index = 3 from rfl]
  simp [NextSpokeEvents, nseSt0, hnext, sqE_vmap, sq_ve3,
    show sqS3.is_reflex = false from rfl]

lemma sq_scan : buildScan squareOffE =
    (1 / 2,
     [⟨true, 1 / 2, (1 / 2, 1 / 2), sqS0, sqS1⟩,
      ⟨true, 1 / 2, (1 / 2, 1 / 2), sqS1, sqS2⟩,
      ⟨true, 1 / 2, (1 / 2, 1 / 2), sqS2, sqS3⟩,
      ⟨true, 1 / 2, (1 / 2, 1 / 2), sqS3, sqS0⟩], []) := by
  simp only [buildScan, sqE_faces, List.foldl, buildScanStep,
    sq_nse0, sq_nse1, sq_nse2, sq_nse3]
  norm_num [TOL]

end HWT

namespace HWT

lemma sqrt_step (t : ℝ) : Real.sqrt 2 * t * (Real.sqrt 2 / 2) = t := by
  linear_combination (t / 2) * sqrt_two_mul_self

lemma sqrt_step_neg (t : ℝ) : Real.sqrt 2 * t * (-(Real.sqrt 2 / 2)) = -t := by
  linear_combination (-t / 2) * sqrt_two_mul_self

lemma sq_ep0_q : sqS0.EndPoint (1 / 4) squareVmap = (1 / 4, 1 / 4) := by
  simp only [Spoke.EndPoint, sqS0, sq_getD0]
  norm_num [sqrt_step, sqrt_step_neg, Prod.ext_iff]

lemma sq_ep1_q : sqS1.EndPoint (1 / 4) squareVmap = (3 / 4, 1 / 4) := by
  simp only [Spoke.EndPoint, sqS1, sq_getD1]
  norm_num [sqrt_step, sqrt_step_neg, Prod.ext_iff]

lemma sq_ep2_q : sqS2.EndPoint (1 / 4) squareVmap = (3 / 4, 3 / 4) := by
  simp only [Spoke.EndPoint, sqS2, sq_getD2]
  norm_num [sqrt_step, sqrt_step_neg, Prod.ext_iff]

lemma sq_ep3_q : sqS3.EndPoint (1 / 4) squareVmap = (1 / 4, 3 / 4) := by
  simp only [Spoke.EndPoint, sqS3, sq_getD3]
  norm_num [sqrt_step, sqrt_step_neg, Prod.ext_iff]

lemma sq_faceVs_quarter : faceVsAux squareVmap [sqS0, sqS1, sqS2, sqS3] (1 / 4) =
    [(1 / 4, 1 / 4), (3 / 4, 1 / 4), (3 / 4, 3 / 4), (1 / 4, 3 / 4)] := by
  simp only [faceVsAux, List.range_succ, List.range_zero, List.foldl,
    List.length_cons, List.length_nil, List.getD_cons_zero, List.getD_cons_succ,
    sq_ep0_q, sq_ep1_q, sq_ep2_q, sq_ep3_q, List.getLast?]
  norm_num [ApproxEqPts, TOL, abs_of_pos, abs_of_neg, abs_zero, sub_self,
    List.getLast?]

lemma sq_mnf_quarter : MakeNewFaces [[sqS0, sqS1, sqS2, sqS3]] squareVmap (1 / 4) =
    ([4, 5, 6, 7],
     squareVmap ++ [(1 / 4, 1 / 4), (3 / 4, 1 / 4), (3 / 4, 3 / 4), (1 / 4, 3 / 4)]) := by
  simp only [MakeNewFaces, List.foldl, FaceAtSpokeEnds, sq_faceVs_quarter]
  norm_num [squareVmap, List.range_succ]

end HWT

namespace HWT

/-- C1: the claimed chained recursion of `Build` is not what the code does.

On the CCW unit square with `targetTime = 1/4` (reached before the first
event at time 1/2), the claim requires every face to be advanced to the
target time and the build to stop cleanly (terminal).  Instead,
`MakeNewFaces` returns a flat list of the newly appended vertex indices
(`ans += newf`, contradicting its own docstring "list of list of int"), and
`Build`'s recursion guard `for f in newfaces: if len(f) >= 3` then calls
`len` on an `int` and raises `TypeError`.  The recursion is never reached
on any offset with a surviving face. -/
theorem build_square_quarter_raises :
    Build squareOff (1 / 4) =
      .error "TypeError: object of type int has no len" := by
  rw [squareOff_eqE]
  unfold Build
  simp only [sq_scan, sqE_faces, sqE_vmap]
  rw [if_pos (by norm_num : (1 / 4 : ℝ) < 1 / 2)]
  simp only [sq_mnf_quarter, buildFinish]
  norm_num
  intro h
  cases h

end HWT

namespace HWT

lemma sq_ep0_h : sqS0.EndPoint (1 / 2) squareVmap = (1 / 2, 1 / 2) := by
  simp only [Spoke.EndPoint, sqS0, sq_getD0]
  norm_num [sqrt_step, sqrt_step_neg, Prod.ext_iff]

lemma sq_ep1_h : sqS1.EndPoint (1 / 2) squareVmap = (1 / 2, 1 / 2) := by
  simp only [Spoke.EndPoint, sqS1, sq_getD1]
  norm_num [sqrt_step, sqrt_step_neg, Prod.ext_iff]

lemma sq_ep2_h : sqS2.EndPoint (1 / 2) squareVmap = (1 / 2, 1 / 2) := by
  simp only [Spoke.EndPoint, sqS2, sq_getD2]
  norm_num [sqrt_step, sqrt_step_neg, Prod.ext_iff]

lemma sq_ep3_h : sqS3.EndPoint (1 / 2) squareVmap = (1 / 2, 1 / 2) := by
  simp only [Spoke.EndPoint, sqS3, sq_getD3]
  norm_num [sqrt_step, sqrt_step_neg, Prod.ext_iff]

lemma sq_faceVs_half : faceVsAux squareVmap [sqS0, sqS1, sqS2, sqS3] (1 / 2) =
    [(1 / 2, 1 / 2)] := by
  simp only [faceVsAux, List.range_succ, List.range_zero, List.foldl,
    List.length_cons, List.length_nil, List.getD_cons_zero, List.getD_cons_succ,
    sq_ep0_h, sq_ep1_h, sq_ep2_h, sq_ep3_h, List.getLast?]
  norm_num [ApproxEqPts, TOL, abs_of_pos, abs_of_neg, abs_zero, sub_self,
    List.getLast?]

lemma sq_mnf_half : MakeNewFaces [[sqS0, sqS1, sqS2, sqS3]] squareVmap (1 / 2) =
    ([4], squareVmap ++ [(1 / 2, 1 / 2)]) := by
  simp only [MakeNewFaces, List.foldl, FaceAtSpokeEnds, sq_faceVs_half]
  norm_num [squareVmap, List.range_succ]

/-- The unit-square convergence facts together with the crash: all four
spoke speeds are `1/sin(45°) = √2`, the first-event time is `1/2`, all four
spoke endpoints at time `1/2` merge to the single point `(1/2, 1/2)` — and
`Build` then raises `TypeError` instead of terminating, because
`MakeNewFaces` hands it a flat list of vertex indices. -/
def squareBuildClaim (t : ℝ) : Prop :=
  (∀ s ∈ [sqS0, sqS1, sqS2, sqS3], s.speed = 1 / Real.sin (Real.pi / 4)) ∧
  squareOff.faces = [[sqS0, sqS1, sqS2, sqS3]] ∧
  (buildScan squareOffE).1 = 1 / 2 ∧
  (∀ s ∈ [sqS0, sqS1, sqS2, sqS3], s.EndPoint (1 / 2) squareVmap = (1 / 2, 1 / 2)) ∧
  faceVsAux squareVmap [sqS0, sqS1, sqS2, sqS3] (1 / 2) = [(1 / 2, 1 / 2)] ∧
  Build squareOff t = .error "TypeError: object of type int has no len"

/-- C2: for the CCW unit square, every spoke speed is `1/sin(45°)`, the
generation's first-event time is `1/2`, and at that time all four spoke
endpoints merge to the single point `(1/2, 1/2)`; but for any target time
`≥ 1/2` the build does not terminate cleanly — it raises `TypeError` (the
flat `MakeNewFaces` result), so the claimed clean termination of the chain
does not hold. -/
theorem square_build_converges_then_raises (t : ℝ) (ht : 1 / 2 ≤ t) :
    squareBuildClaim t := by
  refine ⟨?_, ?_, ?_, ?_, sq_faceVs_half, ?_⟩
  · intro s hs
    rw [Real.sin_pi_div_four, one_div_sqrt_half]
    simp only [List.mem_cons, List.not_mem_nil, or_false] at hs
    rcases hs with rfl | rfl | rfl | rfl
    · rfl
    · rfl
    · rfl
    · rfl
  · rw [squareOff_eqE]
    rfl
  · rw [sq_scan]
  · intro s hs
    simp only [List.mem_cons, List.not_mem_nil, or_false] at hs
    rcases hs with rfl | rfl | rfl | rfl
    · exact sq_ep0_h
    · exact sq_ep1_h
    · exact sq_ep2_h
    · exact sq_ep3_h
  · rw [squareOff_eqE]
    unfold Build
    simp only [sq_scan, sqE_faces, sqE_vmap]
    rw [if_neg (not_lt.mpr ht)]
    rw [if_pos (by simp)]
    simp only [sq_mnf_half, buildFinish]
    norm_num

/-- Witness for C2 at the concrete target time 1. -/
theorem square_build_converges_then_raises_witness :
    (1 / 2 : ℝ) ≤ 1 ∧ squareBuildClaim 1 :=
  ⟨by norm_num, square_build_converges_then_raises 1 (by norm_num)⟩

end HWT

namespace HWT

/-- A 3d point. -/
abbrev Vec3 := ℝ × ℝ × ℝ

/-- Modelled from the spec: the spoke record consumed by the emitter
(`model.py` uses `spoke.origin` and `spoke.dest`); the Offset variant it
belongs to is not part of src. -/
structure MSpoke where
  origin : ℕ
  dest : ℕ

instance : Inhabited MSpoke := ⟨⟨0, 0⟩⟩

/-- Modelled from the spec: the offset-generation record walked by
`AddOffsetFacesToModel` (`facespokes`, `timesofar`, `endtime`,
`inneroffsets`),    per spec §3 "Offset (generation)" and §4.5; this variant
of `Offset` is not in src. -/
inductive MOffset where
  | mk (facespokes : List (List MSpoke)) (timesofar : ℝ) (endtime : ℝ)
      (inneroffsets : List MOffset)

/-- Faces of a generation, as cyclic spoke lists. -/
def MOffset.facespokes : MOffset → List (List MSpoke)
  | .mk f _ _ _ => f

/-- Accumulated time at the start of this generation. -/
noncomputable def MOffset.timesofar : MOffset → ℝ
  | .mk _ t _ _ => t

/-- Duration of this generation. -/
noncomputable def MOffset.endtime : MOffset → ℝ
  | .mk _ _ e _ => e

/-- The inner generations chained below this one. -/
def MOffset.inneroffsets : MOffset → List MOffset
  | .mk _ _ _ i => i

/-- `geom.Model` as used by the emitter: shared 3d points, faces, colors. -/
structure Model where
  points : List Vec3
  faces : List (List ℕ)
  colors : List Vec3

/-- Modelled from the spec: `Points.ChangeZCoord` (geom.py, not in src) —
overwrite the z coordinate of point `v`. -/
noncomputable def ChangeZCoord (pts : List Vec3) (v : ℕ) (z : ℝ) : List Vec3 :=
  match pts[v]? with
  | some p => pts.set v (p.1, p.2.1, z)
  | none => pts

/-- The z coordinate of point `v`. -/
noncomputable def getZ (pts : List Vec3) (v : ℕ) : ℝ := (pts.getD v (0, 0, 0)).2.2

/-- The face emitted for edge `i` of a face (model.py lines 199-213): a
quad `[v0, v1, v2, v3]`, degenerating to the triangle `[v0, v1, v2]` when
the two inner endpoints coincide. -/
def edgeFace (face : List MSpoke) (i : ℕ) : List ℕ :=
  let spoke := face.getD i default
  let nextspoke := face.getD ((i + 1) % face.length) default
  if nextspoke.dest = spoke.dest then [spoke.origin, nextspoke.origin, nextspoke.dest]
  else [spoke.origin, nextspoke.origin, nextspoke.dest, spoke.dest]

/-- Emission of one edge of one face (model.py lines 199-214): the two
outer points get height `zouter`, the two inner points height `zinner`, and
the quad (or triangle) is appended together with its color. -/
noncomputable def emitGenFaceEdge (color : Vec3) (zouter zinner : ℝ)
    (face : List MSpoke) (mdl : Model) (i : ℕ) : Model :=
  let spoke := face.getD i default
  let nextspoke := face.getD ((i + 1) % face.length) default
  let pts1 := ChangeZCoord (ChangeZCoord mdl.points spoke.origin zouter)
    nextspoke.origin zouter
  let pts2 := ChangeZCoord (ChangeZCoord pts1 nextspoke.dest zinner)
    spoke.dest zinner
  { points := pts2, faces := mdl.faces ++ [edgeFace face i],
    colors := mdl.colors ++ [color] }

/-- Emission of one generation (model.py lines 194-214): skipped when the
duration `endtime` is zero. -/
noncomputable def emitGen (o : MOffset) (vspeed : ℝ) (color : Vec3)
    (mdl : Model) : Model :=
  if o.endtime = 0 then mdl
  else
    let zouter := o.timesofar * vspeed
    let zinner := zouter + o.endtime * vspeed
    o.facespokes.foldl
      (fun m face =>
        (List.range face.length).foldl (emitGenFaceEdge color zouter zinner face) m)
      mdl

/-- Total size of a stack of generations, for termination of the walk. -/
noncomputable def stackMeasure (l : List MOffset) : ℕ := (l.map sizeOf).sum

lemma sum_map_sizeOf_lt (l : List MOffset) : (l.map sizeOf).sum < sizeOf l := by
  induction l with
  | nil => simp
  | cons x xs ih =>
    simp only [List.map_cons, List.sum_cons, List.cons.sizeOf_spec]
    omega

lemma inner_sizeOf_lt (o : MOffset) : sizeOf o.inneroffsets < sizeOf o := by
  cases o
  simp [MOffset.inneroffsets]

/-- The `while o: ... ostack.extend(o.inneroffsets) ... o = ostack.pop()`
walk of `AddOffsetFacesToModel` (model.py lines 192-219), with the explicit
stack kept in reversed order: Python's `pop()` from the end of `ostack`
becomes taking the head here, and `extend` prepends the children reversed. -/
noncomputable def emitLoopR (vspeed : ℝ) (color : Vec3) :
    List MOffset → Model → Model
  | [], mdl => mdl
  | o :: rest, mdl =>
    emitLoopR vspeed color (o.inneroffsets.reverse ++ rest)
      (emitGen o vspeed color mdl)
  termination_by l _ => stackMeasure l
  decreasing_by
    simp only [stackMeasure, List.map_append, List.sum_append, List.map_reverse,
      List.sum_reverse, List.map_cons, List.sum_cons]
    have h1 := sum_map_sizeOf_lt o.inneroffsets
    have h2 := inner_sizeOf_lt o
    omega

/-- `AddOffsetFacesToModel` (model.py lines 175-220): assigns the shared
point table, then walks the generation chain emitting sloped faces.  The
`InnerPolyAreas` return value is outside this claim and not modelled. -/
noncomputable def AddOffsetFacesToModel (mdl : Model) (pts : List Vec3)
    (off : MOffset) (vspeed : ℝ) (color : Vec3) : Model :=
  emitLoopR vspeed color [off] { mdl with points := pts }

/-- The faces one generation emits: one quad or triangle per edge of every
face, nothing for a zero-duration generation. -/
noncomputable def genQuads (o : MOffset) : List (List ℕ) :=
  if o.endtime = 0 then []
  else o.facespokes.flatMap fun face =>
    (List.range face.length).map (edgeFace face)

/-- All faces emitted by the stack walk, in visitation order. -/
noncomputable def visitFaces : List MOffset → List (List ℕ)
  | [] => []
  | o :: rest => genQuads o ++ visitFaces (o.inneroffsets.reverse ++ rest)
  termination_by l => stackMeasure l
  decreasing_by
    simp only [stackMeasure, List.map_append, List.sum_append, List.map_reverse,
      List.sum_reverse, List.map_cons, List.sum_cons]
    have h1 := sum_map_sizeOf_lt o.inneroffsets
    have h2 := inner_sizeOf_lt o
    omega

end HWT

namespace HWT

lemma changeZ_length (pts : List Vec3) (v : ℕ) (z : ℝ) :
    (ChangeZCoord pts v z).length = pts.length := by
  unfold ChangeZCoord
  cases h : pts[v]? with
  | none => rfl
  | some p => simp

lemma getZ_changeZ_self (pts : List Vec3) (v : ℕ) (z : ℝ)
    (h : v < pts.length) : getZ (ChangeZCoord pts v z) v = z := by
  unfold ChangeZCoord getZ
  rw [List.getElem?_eq_getElem h]
  simp only [List.getD, List.getElem?_set_self', List.getElem?_eq_getElem h]
  simp [List.getElem?_set_self, h]

lemma getZ_changeZ_other (pts : List Vec3) (v w : ℕ) (z : ℝ) (h : w ≠ v) :
    getZ (ChangeZCoord pts v z) w = getZ pts w := by
  unfold ChangeZCoord getZ
  cases hv : pts[v]? with
  | none => rfl
  | some p =>
    simp only [List.getD]
    rw [List.get?_set]
    simp [Ne.symm h]

end HWT

namespace HWT

lemma emitGenFaceEdge_spec (color : Vec3) (zo zi : ℝ) (face : List MSpoke)
    (mdl : Model) (i : ℕ) (spoke nextspoke : MSpoke)
    (hs : spoke = face.getD i default)
    (hns : nextspoke = face.getD ((i + 1) % face.length) default)
    (h0 : spoke.origin < mdl.points.length)
    (h1 : nextspoke.origin < mdl.points.length)
    (h2 : nextspoke.dest < mdl.points.length)
    (h3 : spoke.dest < mdl.points.length)
    (h02 : spoke.origin ≠ nextspoke.dest) (h03 : spoke.origin ≠ spoke.dest)
    (h12 : nextspoke.origin ≠ nextspoke.dest)
    (h13 : nextspoke.origin ≠ spoke.dest) :
    (emitGenFaceEdge color zo zi face mdl i).faces =
      mdl.faces ++ [edgeFace face i] ∧
    (emitGenFaceEdge color zo zi face mdl i).colors = mdl.colors ++ [color] ∧
    getZ (emitGenFaceEdge color zo zi face mdl i).points spoke.origin = zo ∧
    getZ (emitGenFaceEdge color zo zi face mdl i).points nextspoke.origin = zo ∧
    getZ (emitGenFaceEdge color zo zi face mdl i).points nextspoke.dest = zi ∧
    getZ (emitGenFaceEdge color zo zi face mdl i).points spoke.dest = zi := by
  unfold emitGenFaceEdge
  rw [← hs, ← hns]
  dsimp only
  refine ⟨rfl, rfl, ?_, ?_, ?_, ?_⟩
  · rw [getZ_changeZ_other _ _ _ _ h03, getZ_changeZ_other _ _ _ _ h02]
    by_cases h01 : spoke.origin = nextspoke.origin
    · rw [h01]
      exact getZ_changeZ_self _ _ _ (by rw [changeZ_length] ; exact h1)
    · rw [getZ_changeZ_other _ _ _ _ h01]
      exact getZ_changeZ_self _ _ _ h0
  · rw [getZ_changeZ_other _ _ _ _ h13, getZ_changeZ_other _ _ _ _ h12]
    exact getZ_changeZ_self _ _ _ (by rw [changeZ_length] ; exact h1)
  · by_cases h23 : nextspoke.dest = spoke.dest
    · rw [h23]
      exact getZ_changeZ_self _ _ _ (by
        rw [changeZ_length, changeZ_length, changeZ_length] ; exact h3)
    · rw [getZ_changeZ_other _ _ _ _ h23]
      exact getZ_changeZ_self _ _ _ (by
        rw [changeZ_length, changeZ_length] ; exact h2)
  · exact getZ_changeZ_self _ _ _ (by
      rw [changeZ_length, changeZ_length, changeZ_length] ; exact h3)

lemma emitGenFaceEdge_faces (color : Vec3) (zo zi : ℝ) (face : List MSpoke)
    (mdl : Model) (i : ℕ) :
    (emitGenFaceEdge color zo zi face mdl i).faces =
      mdl.faces ++ [edgeFace face i] := rfl

lemma foldl_emitGenFaceEdge_faces (color : Vec3) (zo zi : ℝ)
    (face : List MSpoke) (idxs : List ℕ) :
    ∀ mdl : Model,
      ((idxs.foldl (emitGenFaceEdge color zo zi face) mdl).faces =
        mdl.faces ++ idxs.map (edgeFace face)) := by
  induction idxs with
  | nil => intro mdl ; simp
  | cons x xs ih =>
    intro mdl
    rw [List.foldl_cons, ih, emitGenFaceEdge_faces]
    simp

lemma emitGen_faces (o : MOffset) (vspeed : ℝ) (color : Vec3) (mdl : Model) :
    (emitGen o vspeed color mdl).faces = mdl.faces ++ genQuads o := by
  unfold emitGen genQuads
  split_ifs with h
  · simp
  · have hgen : ∀ (fs : List (List MSpoke)) (m : Model),
        ((fs.foldl (fun m face => (List.range face.length).foldl
          (emitGenFaceEdge color (o.timesofar * vspeed)
            (o.timesofar * vspeed + o.endtime * vspeed) face) m) m).faces =
          m.faces ++ fs.flatMap fun face =>
            (List.range face.length).map (edgeFace face)) := by
      intro fs
      induction fs with
      | nil => intro m ; simp
      | cons f gs ih =>
        intro m
        rw [List.foldl_cons, ih, foldl_emitGenFaceEdge_faces]
        simp
    exact hgen o.facespokes mdl

lemma emitGen_degenerate (o : MOffset) (vspeed : ℝ) (color : Vec3)
    (mdl : Model) (h : o.endtime = 0) : emitGen o vspeed color mdl = mdl := by
  unfold emitGen
  rw [if_pos h]

lemma emitLoopR_faces (vspeed : ℝ) (color : Vec3) :
    ∀ (l : List MOffset) (mdl : Model),
      (emitLoopR vspeed color l mdl).faces = mdl.faces ++ visitFaces l
  | [], mdl => by
    simp [emitLoopR, visitFaces]
  | o :: rest, mdl => by
    rw [emitLoopR, visitFaces]
    rw [emitLoopR_faces vspeed color (o.inneroffsets.reverse ++ rest)
      (emitGen o vspeed color mdl)]
    rw [emitGen_faces]
    simp [List.append_assoc]
  termination_by l _ => stackMeasure l
  decreasing_by
    simp only [stackMeasure, List.map_append, List.sum_append, List.map_reverse,
      List.sum_reverse, List.map_cons, List.sum_cons]
    have h1 := sum_map_sizeOf_lt o.inneroffsets
    have h2 := inner_sizeOf_lt o
    omega

end HWT

namespace HWT

/-- C9: the emitter walks the generation chain with an explicit stack
(`visitFaces` lists the visited generations' emissions in stack order), and
for each generation with nonzero duration emits, for every edge of every
face, a quad whose two outer points receive height `timesofar * vspeed`
(accumulated time times the vertical speed) and whose two inner points
receive height `(timesofar + endtime) * vspeed` (accumulated time plus this
generation's duration, same scaling), emitting a triangle instead when the
two inner endpoints are the same point; a zero-duration generation emits
nothing. -/
theorem addOffsetFaces_emission (mdl : Model) (pts : List Vec3) (off : MOffset)
    (vspeed : ℝ) (color : Vec3) :
    ((AddOffsetFacesToModel mdl pts off vspeed color).faces =
      mdl.faces ++ visitFaces [off]) ∧
    (∀ o : MOffset, o.endtime = 0 → ∀ m, emitGen o vspeed color m = m) ∧
    (∀ o : MOffset, o.endtime ≠ 0 →
      genQuads o = o.facespokes.flatMap fun face =>
        (List.range face.length).map (edgeFace face)) ∧
    (∀ (face : List MSpoke) (m : Model) (i : ℕ) (o : MOffset)
        (spoke nextspoke : MSpoke),
      spoke = face.getD i default →
      nextspoke = face.getD ((i + 1) % face.length) default →
      spoke.origin < m.points.length → nextspoke.origin < m.points.length →
      nextspoke.dest < m.points.length → spoke.dest < m.points.length →
      spoke.origin ≠ nextspoke.dest → spoke.origin ≠ spoke.dest →
      nextspoke.origin ≠ nextspoke.dest → nextspoke.origin ≠ spoke.dest →
      (emitGenFaceEdge color (o.timesofar * vspeed)
          (o.timesofar * vspeed + o.endtime * vspeed) face m i).faces =
        m.faces ++ [edgeFace face i] ∧
      getZ (emitGenFaceEdge color (o.timesofar * vspeed)
          (o.timesofar * vspeed + o.endtime * vspeed) face m i).points
        spoke.origin = o.timesofar * vspeed ∧
      getZ (emitGenFaceEdge color (o.timesofar * vspeed)
          (o.timesofar * vspeed + o.endtime * vspeed) face m i).points
        nextspoke.origin = o.timesofar * vspeed ∧
      getZ (emitGenFaceEdge color (o.timesofar * vspeed)
          (o.timesofar * vspeed + o.endtime * vspeed) face m i).points
        nextspoke.dest = (o.timesofar + o.endtime) * vspeed ∧
      getZ (emitGenFaceEdge color (o.timesofar * vspeed)
          (o.timesofar * vspeed + o.endtime * vspeed) face m i).points
        spoke.dest = (o.timesofar + o.endtime) * vspeed) := by
  refine ⟨?_, ?_, ?_, ?_⟩
  · unfold AddOffsetFacesToModel
    rw [emitLoopR_faces]
  · intro o h m
    exact emitGen_degenerate o vspeed color m h
  · intro o h
    unfold genQuads
    rw [if_neg h]
  · intro face m i o spoke nextspoke hs hns h0 h1 h2 h3 h02 h03 h12 h13
    have hspec := emitGenFaceEdge_spec color (o.timesofar * vspeed)
      (o.timesofar * vspeed + o.endtime * vspeed) face m i spoke nextspoke
      hs hns h0 h1 h2 h3 h02 h03 h12 h13
    have hz : o.timesofar * vspeed + o.endtime * vspeed =
        (o.timesofar + o.endtime) * vspeed := by ring
    exact ⟨hspec.1, hspec.2.2.1, hspec.2.2.2.1, hz ▸ hspec.2.2.2.2.1,
      hz ▸ hspec.2.2.2.2.2⟩

end HWT
